import Mathlib

set_option maxRecDepth 4000

/-!
Shallow embedding of the `mappedheap` repository: the page allocator
(`MappedHeap` in `src/lib.rs`, mirrored by `ExtensibleMapping` in
`src/extensiblemapping.rs`) and the B+tree built on it
(`src/btree/mod.rs`, `src/btree/node.rs`).

Machine integers (`u64`, `usize`) are modelled as `Nat`.  Rust operations
that panic (failed `assert!`, out-of-bounds indexing, `unwrap` of `None`,
`usize` underflow) are modelled by returning `none`; a function result of
`some x` corresponds to the Rust call returning normally with `x`.
-/

namespace MappedHeap

/-- `pub type PageId = u64;` (src/lib.rs). -/
abbrev PageId := Nat

/-- `pub const NULL_PAGE: PageId = 0;` (src/lib.rs). -/
def NULL_PAGE : PageId := 0

/-- `pub const PAGESZ: usize = 4096;` (src/lib.rs). -/
def PAGESZ : Nat := 4096

/-- `const FREELIST_E_PER_PAGE: usize = (PAGESZ / 8) - 2;` = 510 (src/lib.rs). -/
def FREELIST_E_PER_PAGE : Nat := PAGESZ / 8 - 2

/-- `struct FreelistPage { n_entries: u64, entries: [PageId; 510], next: PageId }`
(src/lib.rs).  `entries` models the fixed array; it has length 510 in every
state the program can produce. -/
structure FreelistPage where
  n_entries : Nat
  entries : List PageId
  next : PageId
deriving DecidableEq

/-- A page whose bytes are all zero, read as a `FreelistPage`.  Fresh file
space (`ftruncate` extension) and `MADV_REMOVE` holes read as zeroes. -/
def zeroFreelistPage : FreelistPage :=
  { n_entries := 0, entries := List.replicate FREELIST_E_PER_PAGE 0, next := 0 }

/-- The allocator-visible state of a `MappedHeap`: the header fields `size`
and `freelist_id`, plus every page of the file viewed as a `FreelistPage`
(the allocator reads and writes only pages that are on the free list). -/
structure Heap where
  size : Nat
  freelist_id : PageId
  pages : PageId → FreelistPage

/-- Write one page of the file. -/
def setPage (h : Heap) (p : PageId) (fp : FreelistPage) : Heap :=
  { h with pages := fun q => if q = p then fp else h.pages q }

/-- `MappedHeap::initialize` (src/lib.rs): a fresh two-page file, i.e. a
header with `size = 2`, `freelist_id = 1`, followed by one all-zero page. -/
def initHeap : Heap :=
  { size := 2, freelist_id := 1, pages := fun _ => zeroFreelistPage }

/-- The `while first_free != last_free` loop at the end of `MappedHeap::alloc`
(src/lib.rs lines 304-318): chain the freshly acquired pages
`[first, last)` into free-list pages, working backwards from `last - 1`.
Each constructed page absorbs up to `FREELIST_E_PER_PAGE` ids
(`entries[i] = first + i`), is linked onto the previous head, and becomes
the new `freelist_id`.  Callers always have `first ≤ last`; the guard
`last ≤ first` coincides with the Rust loop guard `first != last` there. -/
def chainLoop (pages : PageId → FreelistPage) (flid : PageId) (first last : Nat) :
    (PageId → FreelistPage) × PageId :=
  if hstop : last ≤ first then (pages, flid)
  else
    let pid := last - 1
    let n := min (pid - first) FREELIST_E_PER_PAGE
    let old := pages pid
    let fp : FreelistPage :=
      { n_entries := n,
        entries := (List.range n).map (fun i => first + i) ++ old.entries.drop n,
        next := flid }
    chainLoop (fun q => if q = pid then fp else pages q) pid (first + n) pid
termination_by last - first
decreasing_by
  simp only [not_le] at hstop
  omega

/-- `MappedHeap::alloc` (src/lib.rs lines 293-338).  The slow path
(`freelist_id == NULL`) doubles the file (`double_file`) and chains the new
pages into the free list; the fast path pops an entry from the head
free-list page, or consumes the head page itself when it is empty. -/
def alloc (h : Heap) : Option (PageId × Heap) :=
  if h.freelist_id = NULL_PAGE then
    let ret := h.size
    let newSize := h.size * 2
    let chained := chainLoop h.pages h.freelist_id (ret + 1) newSize
    some (ret, { size := newSize, freelist_id := chained.2, pages := chained.1 })
  else if h.freelist_id < h.size then
    let fp := h.pages h.freelist_id
    if fp.n_entries = 0 then
      -- consume self page
      some (h.freelist_id, { h with freelist_id := fp.next })
    else if fp.n_entries ≤ FREELIST_E_PER_PAGE then
      some (fp.entries.getD (fp.n_entries - 1) 0,
            setPage h h.freelist_id { fp with n_entries := fp.n_entries - 1 })
    else
      none  -- `entries[n_entries]` would index out of bounds
  else
    none  -- `self.page_mut(header.freelist_id).unwrap()` panics

/-- Make page `id` the new head of the free list (`// link in at front`,
src/lib.rs lines 379-384). -/
def linkInFront (h : Heap) (id : PageId) : Heap :=
  let h1 := setPage h id
    { n_entries := 0, entries := (h.pages id).entries, next := h.freelist_id }
  { h1 with freelist_id := id }

/-- `MappedHeap::free` (src/lib.rs lines 359-385).  Asserts `id != NULL_PAGE`
and `id < size`; appends to the head free-list page when it has room (then
hole-punches the freed page, which reads back as zeroes), otherwise turns
the freed page itself into the new free-list head. -/
def free (h : Heap) (id : PageId) : Option Heap :=
  if id = NULL_PAGE then none          -- assert!(id != NULL_PAGE)
  else if h.size ≤ id then none        -- assert!(id < self.header().size)
  else if h.freelist_id ≠ NULL_PAGE then
    if h.freelist_id < h.size then
      let fp := h.pages h.freelist_id
      if fp.n_entries < FREELIST_E_PER_PAGE then
        let h1 := setPage h h.freelist_id
          { fp with entries := fp.entries.set fp.n_entries id,
                    n_entries := fp.n_entries + 1 }
        -- clear_page: madvise(MADV_REMOVE) zeroes the freed page's backing
        some (setPage h1 id zeroFreelistPage)
      else
        some (linkInFront h id)
    else
      none  -- `self.page_mut(header.freelist_id).unwrap()` panics
  else
    some (linkInFront h id)

/-- Heap states reachable from a fresh `initialize`d file by completed
`alloc` and `free` calls. -/
inductive Reachable : Heap → Prop
  | init : Reachable initHeap
  | alloc {h r h'} : Reachable h → alloc h = some (r, h') → Reachable h'
  | free {h id h'} : Reachable h → free h id = some h' → Reachable h'

/-! Branch equations for `alloc` and `free`, one per control path. -/

theorem alloc_slow (g : Heap) (hf : g.freelist_id = NULL_PAGE) :
    alloc g = some (g.size,
      { size := g.size * 2,
        freelist_id := (chainLoop g.pages g.freelist_id (g.size + 1) (g.size * 2)).2,
        pages := (chainLoop g.pages g.freelist_id (g.size + 1) (g.size * 2)).1 }) := by
  simp [alloc, hf]

theorem alloc_consume (g : Heap) (h0 : g.freelist_id ≠ NULL_PAGE)
    (h1 : g.freelist_id < g.size) (h2 : (g.pages g.freelist_id).n_entries = 0) :
    alloc g = some (g.freelist_id,
      { g with freelist_id := (g.pages g.freelist_id).next }) := by
  simp [alloc, h0, h1, h2]

theorem alloc_pop (g : Heap) (h0 : g.freelist_id ≠ NULL_PAGE)
    (h1 : g.freelist_id < g.size) (n : Nat)
    (h2 : (g.pages g.freelist_id).n_entries = n + 1)
    (h3 : n + 1 ≤ FREELIST_E_PER_PAGE) :
    alloc g = some ((g.pages g.freelist_id).entries.getD n 0,
      setPage g g.freelist_id { g.pages g.freelist_id with n_entries := n }) := by
  simp [alloc, h0, h1, h2, h3]

theorem alloc_head_oob (g : Heap) (h0 : g.freelist_id ≠ NULL_PAGE)
    (h1 : ¬ g.freelist_id < g.size) : alloc g = none := by
  simp [alloc, h0, h1]

theorem alloc_entries_oob (g : Heap) (h0 : g.freelist_id ≠ NULL_PAGE)
    (h1 : g.freelist_id < g.size) (h2 : (g.pages g.freelist_id).n_entries ≠ 0)
    (h3 : ¬ (g.pages g.freelist_id).n_entries ≤ FREELIST_E_PER_PAGE) :
    alloc g = none := by
  simp [alloc, h0, h1, h2, h3]

theorem alloc_linkInFront (h : Heap) (id : PageId) (hid0 : id ≠ NULL_PAGE)
    (hids : id < h.size) :
    alloc (linkInFront h id) =
      some (id, { linkInFront h id with freelist_id := h.freelist_id }) := by
  simp [alloc, linkInFront, setPage, hid0, hids]

theorem free_null (g : Heap) : free g NULL_PAGE = none := rfl

theorem free_size_oob (g : Heap) (id : PageId) (h0 : id ≠ NULL_PAGE)
    (h1 : g.size ≤ id) : free g id = none := by
  simp [free, h0, h1]

theorem free_append (g : Heap) (id : PageId) (h0 : id ≠ NULL_PAGE)
    (h1 : id < g.size) (hf : g.freelist_id ≠ NULL_PAGE)
    (hflt : g.freelist_id < g.size)
    (hroom : (g.pages g.freelist_id).n_entries < FREELIST_E_PER_PAGE) :
    free g id = some (setPage
      (setPage g g.freelist_id
        { g.pages g.freelist_id with
            entries := (g.pages g.freelist_id).entries.set
              (g.pages g.freelist_id).n_entries id,
            n_entries := (g.pages g.freelist_id).n_entries + 1 })
      id zeroFreelistPage) := by
  simp [free, h0, Nat.not_le.mpr h1, hf, hflt, hroom]

theorem free_head_full (g : Heap) (id : PageId) (h0 : id ≠ NULL_PAGE)
    (h1 : id < g.size) (hf : g.freelist_id ≠ NULL_PAGE)
    (hflt : g.freelist_id < g.size)
    (hroom : ¬ (g.pages g.freelist_id).n_entries < FREELIST_E_PER_PAGE) :
    free g id = some (linkInFront g id) := by
  simp [free, h0, Nat.not_le.mpr h1, hf, hflt, hroom]

theorem free_empty_list (g : Heap) (id : PageId) (h0 : id ≠ NULL_PAGE)
    (h1 : id < g.size) (hf : g.freelist_id = NULL_PAGE) :
    free g id = some (linkInFront g id) := by
  simp [free, h0, Nat.not_le.mpr h1, hf]

theorem free_head_oob (g : Heap) (id : PageId) (h0 : id ≠ NULL_PAGE)
    (h1 : id < g.size) (hf : g.freelist_id ≠ NULL_PAGE)
    (hflt : ¬ g.freelist_id < g.size) : free g id = none := by
  simp [free, h0, Nat.not_le.mpr h1, hf, hflt]

/-! The allocator invariant maintained by every reachable heap state. -/

/-- Every page's `entries` array has its on-disk length 510. -/
def EntriesLen (h : Heap) : Prop :=
  ∀ p, ((h.pages p).entries).length = FREELIST_E_PER_PAGE

/-- Every live free-list entry of every page is a non-NULL page id. -/
def EntriesPos (h : Heap) : Prop :=
  ∀ p i, i < (h.pages p).n_entries → i < FREELIST_E_PER_PAGE →
    (h.pages p).entries.getD i 0 ≠ 0

/-- The allocator invariant: the file size is a power of two (at least 2,
the size written by `initialize`), and the free-list pages are well formed. -/
def HeapInv (h : Heap) : Prop :=
  (∃ k, h.size = 2 ^ (k + 1)) ∧ EntriesLen h ∧ EntriesPos h

theorem chainLoop_pages_fuel (fuel : Nat) :
    ∀ (pages : PageId → FreelistPage) (flid : PageId) (first last : Nat),
    last - first ≤ fuel →
    (∀ q, ((pages q).entries).length = FREELIST_E_PER_PAGE) →
    (∀ q i, i < (pages q).n_entries → i < FREELIST_E_PER_PAGE →
      (pages q).entries.getD i 0 ≠ 0) →
    1 ≤ first →
    (∀ q, (((chainLoop pages flid first last).1 q).entries).length =
        FREELIST_E_PER_PAGE) ∧
    (∀ q i, i < ((chainLoop pages flid first last).1 q).n_entries →
      i < FREELIST_E_PER_PAGE →
      ((chainLoop pages flid first last).1 q).entries.getD i 0 ≠ 0) := by
  induction fuel with
  | zero =>
      intro pages flid first last hfuel hlen hpos _
      have hstop : last ≤ first := by omega
      rw [chainLoop, dif_pos hstop]
      exact ⟨hlen, hpos⟩
  | succ fuel ih =>
      intro pages flid first last hfuel hlen hpos hfirst
      by_cases hstop : last ≤ first
      · rw [chainLoop, dif_pos hstop]
        exact ⟨hlen, hpos⟩
      · rw [chainLoop, dif_neg hstop]
        have hnot : first < last := Nat.not_le.mp hstop
        refine ih _ _ _ _ (by omega) ?_ ?_ (by omega)
        · intro q
          by_cases hq : q = last - 1
          · subst hq
            have hold : (pages (last - 1)).entries.length =
                FREELIST_E_PER_PAGE := hlen (last - 1)
            rw [if_pos rfl]
            simp only [List.length_append, List.length_map, List.length_range,
              List.length_drop, hold]
            have : min (last - 1 - first) FREELIST_E_PER_PAGE ≤
                FREELIST_E_PER_PAGE := Nat.min_le_right _ _
            omega
          · rw [if_neg hq]; exact hlen q
        · intro q i hi hiF
          by_cases hq : q = last - 1
          · subst hq
            rw [if_pos rfl] at hi ⊢
            have hin : i < min (last - 1 - first) FREELIST_E_PER_PAGE := hi
            have hval : ((List.range (min (last - 1 - first)
                FREELIST_E_PER_PAGE)).map (fun j => first + j) ++
                (pages (last - 1)).entries.drop
                  (min (last - 1 - first) FREELIST_E_PER_PAGE)).getD i 0 =
                first + i := by
              rw [List.getD_eq_getElem?_getD,
                List.getElem?_append_left (by simpa using hin)]
              simp [List.getElem?_range hin]
            intro hzero
            have hzero' : ((List.range (min (last - 1 - first)
                FREELIST_E_PER_PAGE)).map (fun j => first + j) ++
                (pages (last - 1)).entries.drop
                  (min (last - 1 - first) FREELIST_E_PER_PAGE)).getD i 0 =
                0 := hzero
            rw [hval] at hzero'
            omega
          · rw [if_neg hq] at hi ⊢; exact hpos q i hi hiF

theorem chainLoop_pages (pages : PageId → FreelistPage) (flid : PageId)
    (first last : Nat)
    (hlen : ∀ q, ((pages q).entries).length = FREELIST_E_PER_PAGE)
    (hpos : ∀ q i, i < (pages q).n_entries → i < FREELIST_E_PER_PAGE →
      (pages q).entries.getD i 0 ≠ 0)
    (hfirst : 1 ≤ first) :
    (∀ q, (((chainLoop pages flid first last).1 q).entries).length =
        FREELIST_E_PER_PAGE) ∧
    (∀ q i, i < ((chainLoop pages flid first last).1 q).n_entries →
      i < FREELIST_E_PER_PAGE →
      ((chainLoop pages flid first last).1 q).entries.getD i 0 ≠ 0) :=
  chainLoop_pages_fuel (last - first) pages flid first last (Nat.le_refl _)
    hlen hpos hfirst

theorem setPage_pages_self (h : Heap) (p : PageId) (fp : FreelistPage) :
    (setPage h p fp).pages p = fp := by
  simp [setPage]

theorem setPage_pages_ne (h : Heap) (p q : PageId) (fp : FreelistPage)
    (hq : q ≠ p) : (setPage h p fp).pages q = h.pages q := by
  simp [setPage, hq]

theorem linkInFront_pages_self (h : Heap) (id : PageId) :
    (linkInFront h id).pages id =
      { n_entries := 0, entries := (h.pages id).entries,
        next := h.freelist_id } := by
  simp [linkInFront, setPage]

theorem linkInFront_pages_ne (h : Heap) (id q : PageId) (hq : q ≠ id) :
    (linkInFront h id).pages q = h.pages q := by
  simp [linkInFront, setPage, hq]

theorem alloc_inv {h : Heap} (inv : HeapInv h) {r : PageId} {h' : Heap}
    (ha : alloc h = some (r, h')) : HeapInv h' := by
  obtain ⟨⟨k, hk⟩, hlen, hpos⟩ := inv
  by_cases hf : h.freelist_id = NULL_PAGE
  · rw [alloc_slow h hf] at ha
    simp only [Option.some.injEq, Prod.mk.injEq] at ha
    obtain ⟨-, ha2⟩ := ha
    have hchain := chainLoop_pages h.pages h.freelist_id (h.size + 1)
      (h.size * 2) hlen hpos (by omega)
    subst ha2
    exact ⟨⟨k + 1, by rw [hk]; ring⟩, hchain.1, hchain.2⟩
  · by_cases hlt : h.freelist_id < h.size
    · by_cases hz : (h.pages h.freelist_id).n_entries = 0
      · rw [alloc_consume h hf hlt hz] at ha
        simp only [Option.some.injEq, Prod.mk.injEq] at ha
        obtain ⟨-, ha2⟩ := ha
        subst ha2
        exact ⟨⟨k, hk⟩, hlen, hpos⟩
      · by_cases hle : (h.pages h.freelist_id).n_entries ≤ FREELIST_E_PER_PAGE
        · obtain ⟨n, hn⟩ : ∃ n, (h.pages h.freelist_id).n_entries = n + 1 :=
            ⟨(h.pages h.freelist_id).n_entries - 1, by omega⟩
          rw [alloc_pop h hf hlt n hn (hn ▸ hle)] at ha
          simp only [Option.some.injEq, Prod.mk.injEq] at ha
          obtain ⟨-, ha2⟩ := ha
          subst ha2
          refine ⟨⟨k, hk⟩, ?_, ?_⟩
          · intro q
            by_cases hq : q = h.freelist_id
            · subst hq
              rw [setPage_pages_self]
              exact hlen h.freelist_id
            · rw [setPage_pages_ne h _ _ _ hq]
              exact hlen q
          · intro q i hi hiF
            by_cases hq : q = h.freelist_id
            · subst hq
              rw [setPage_pages_self] at hi ⊢
              have hi' : i < n := hi
              exact hpos _ i (by omega) hiF
            · rw [setPage_pages_ne h _ _ _ hq] at hi ⊢
              exact hpos q i hi hiF
        · rw [alloc_entries_oob h hf hlt hz hle] at ha
          exact absurd ha (by simp)
    · rw [alloc_head_oob h hf hlt] at ha
      exact absurd ha (by simp)

theorem free_inv {h : Heap} (inv : HeapInv h) {id : PageId} {h' : Heap}
    (hfr : free h id = some h') : HeapInv h' := by
  obtain ⟨⟨k, hk⟩, hlen, hpos⟩ := inv
  by_cases h0 : id = NULL_PAGE
  · rw [h0, free_null] at hfr
    exact absurd hfr (by simp)
  · by_cases hsz : h.size ≤ id
    · rw [free_size_oob h id h0 hsz] at hfr
      exact absurd hfr (by simp)
    · have hsz' : id < h.size := Nat.not_le.mp hsz
      have hlinkInv : HeapInv (linkInFront h id) := by
        refine ⟨⟨k, hk⟩, ?_, ?_⟩
        · intro q
          by_cases hq : q = id
          · subst hq
            rw [linkInFront_pages_self]
            exact hlen q
          · rw [linkInFront_pages_ne h id q hq]
            exact hlen q
        · intro q i hi hiF
          by_cases hq : q = id
          · subst hq
            rw [linkInFront_pages_self] at hi
            have hi' : i < 0 := hi
            omega
          · rw [linkInFront_pages_ne h id q hq] at hi ⊢
            exact hpos q i hi hiF
      by_cases hf : h.freelist_id = NULL_PAGE
      · rw [free_empty_list h id h0 hsz' hf] at hfr
        simp only [Option.some.injEq] at hfr
        subst hfr; exact hlinkInv
      · by_cases hflt : h.freelist_id < h.size
        · by_cases hroom : (h.pages h.freelist_id).n_entries <
              FREELIST_E_PER_PAGE
          · rw [free_append h id h0 hsz' hf hflt hroom] at hfr
            simp only [Option.some.injEq] at hfr
            subst hfr
            refine ⟨⟨k, hk⟩, ?_, ?_⟩
            · intro q
              by_cases hq : q = id
              · subst hq
                rw [setPage_pages_self]
                simp [zeroFreelistPage]
              · rw [setPage_pages_ne _ _ _ _ hq]
                by_cases hq2 : q = h.freelist_id
                · subst hq2
                  rw [setPage_pages_self]
                  show ((h.pages h.freelist_id).entries.set
                    (h.pages h.freelist_id).n_entries id).length =
                    FREELIST_E_PER_PAGE
                  rw [List.length_set]
                  exact hlen h.freelist_id
                · rw [setPage_pages_ne h _ _ _ hq2]
                  exact hlen q
            · intro q i hi hiF
              by_cases hq : q = id
              · subst hq
                rw [setPage_pages_self] at hi
                have hi' : i < 0 := hi
                omega
              · rw [setPage_pages_ne _ _ _ _ hq] at hi ⊢
                by_cases hq2 : q = h.freelist_id
                · subst hq2
                  rw [setPage_pages_self] at hi ⊢
                  have hi' : i < (h.pages h.freelist_id).n_entries + 1 := hi
                  show ((h.pages h.freelist_id).entries.set
                    (h.pages h.freelist_id).n_entries id).getD i 0 ≠ 0
                  rw [List.getD_eq_getElem?_getD, List.getElem?_set]
                  by_cases hieq : i = (h.pages h.freelist_id).n_entries
                  · have hlt2 : (h.pages h.freelist_id).n_entries <
                        (h.pages h.freelist_id).entries.length := by
                      rw [hlen]; exact hroom
                    simpa [hieq, hlt2, NULL_PAGE] using h0
                  · have hi2 : i < (h.pages h.freelist_id).n_entries := by
                      omega
                    have := hpos h.freelist_id i hi2 hiF
                    rw [List.getD_eq_getElem?_getD] at this
                    simpa [Ne.symm hieq] using this
                · rw [setPage_pages_ne h _ _ _ hq2] at hi ⊢
                  exact hpos q i hi hiF
          · rw [free_head_full h id h0 hsz' hf hflt hroom] at hfr
            simp only [Option.some.injEq] at hfr
            subst hfr; exact hlinkInv
        · rw [free_head_oob h id h0 hsz' hf hflt] at hfr
          exact absurd hfr (by simp)

theorem reachable_inv {h : Heap} (hr : Reachable h) : HeapInv h := by
  induction hr with
  | init =>
      refine ⟨⟨0, rfl⟩, fun p => by simp [initHeap, zeroFreelistPage], ?_⟩
      intro p i hi _
      simp [initHeap, zeroFreelistPage] at hi
  | alloc _ ha ih => exact alloc_inv ih ha
  | free _ hfr ih => exact free_inv ih hfr

end MappedHeap

/-- Claim C4: with `freelist_id = h ≠ NULL`, `alloc` reads the free-list page
at `h`; if its `n_entries > 0` it decrements `n_entries` and returns
`entries[n_entries]`, otherwise it sets `freelist_id` to that page's `next`
and returns `h` itself. -/
theorem c4_alloc_fast_path (h : MappedHeap.Heap)
    (h0 : h.freelist_id ≠ MappedHeap.NULL_PAGE) (hlt : h.freelist_id < h.size) :
    ((h.pages h.freelist_id).n_entries = 0 →
       MappedHeap.alloc h =
         some (h.freelist_id, { h with freelist_id := (h.pages h.freelist_id).next })) ∧
    (∀ n, (h.pages h.freelist_id).n_entries = n + 1 →
       n + 1 ≤ MappedHeap.FREELIST_E_PER_PAGE →
       MappedHeap.alloc h =
         some ((h.pages h.freelist_id).entries.getD n 0,
           MappedHeap.setPage h h.freelist_id
             { h.pages h.freelist_id with n_entries := n })) :=
  ⟨MappedHeap.alloc_consume h h0 hlt, MappedHeap.alloc_pop h h0 hlt⟩

/-- A concrete heap exercising the fast-path branches of `alloc`: the head
free-list page 2 holds one entry (page 7) and chains to page 3. -/
def c4Heap : MappedHeap.Heap :=
  { size := 4, freelist_id := 2,
    pages := fun p =>
      if p = 2 then ⟨1, 7 :: List.replicate 509 0, 3⟩ else MappedHeap.zeroFreelistPage }

theorem c4_alloc_fast_path_witness :
    MappedHeap.alloc c4Heap =
      some (7, MappedHeap.setPage c4Heap 2 ⟨0, 7 :: List.replicate 509 0, 3⟩) := by
  have h := (c4_alloc_fast_path c4Heap (by decide) (by decide)).2 0 (by rfl) (by decide)
  exact h

/-- Claim C5: freeing a valid allocated page `id` and then calling `alloc`
returns `id` again, whether `free` appended `id` to the head free-list page
or turned `id` itself into the new head. -/
theorem c5_free_then_alloc (h : MappedHeap.Heap) (id : MappedHeap.PageId)
    (hid0 : id ≠ MappedHeap.NULL_PAGE) (hids : id < h.size)
    (hflid : h.freelist_id ≠ MappedHeap.NULL_PAGE → h.freelist_id < h.size)
    (hlen : ∀ p, ((h.pages p).entries).length = MappedHeap.FREELIST_E_PER_PAGE) :
    ∃ h', MappedHeap.free h id = some h' ∧
      ∃ h'', MappedHeap.alloc h' = some (id, h'') := by
  by_cases hf : h.freelist_id = MappedHeap.NULL_PAGE
  · -- empty free list: `id` becomes the new head, `alloc` consumes it
    exact ⟨_, MappedHeap.free_empty_list h id hid0 hids hf, _,
      MappedHeap.alloc_linkInFront h id hid0 hids⟩
  · have hfs : h.freelist_id < h.size := hflid hf
    by_cases hroom : (h.pages h.freelist_id).n_entries < MappedHeap.FREELIST_E_PER_PAGE
    · -- append to the head page, then hole-punch page `id`
      have hfree := MappedHeap.free_append h id hid0 hids hf hfs hroom
      by_cases hsame : h.freelist_id = id
      · -- double free of the head page itself: the hole-punch zeroed it,
        -- so `alloc` consumes the (now empty, still head) page = `id`
        have halloc := MappedHeap.alloc_consume
          (MappedHeap.setPage
            (MappedHeap.setPage h h.freelist_id
              { h.pages h.freelist_id with
                  entries := (h.pages h.freelist_id).entries.set
                    (h.pages h.freelist_id).n_entries id,
                  n_entries := (h.pages h.freelist_id).n_entries + 1 })
            id MappedHeap.zeroFreelistPage)
          (by simp [MappedHeap.setPage, hf]) (by simp [MappedHeap.setPage, hfs])
          (by simp [MappedHeap.setPage, hsame, MappedHeap.zeroFreelistPage])
        rw [show (MappedHeap.setPage
            (MappedHeap.setPage h h.freelist_id
              { h.pages h.freelist_id with
                  entries := (h.pages h.freelist_id).entries.set
                    (h.pages h.freelist_id).n_entries id,
                  n_entries := (h.pages h.freelist_id).n_entries + 1 })
            id MappedHeap.zeroFreelistPage).freelist_id = id from by
          simp [MappedHeap.setPage, hsame]] at halloc
        exact ⟨_, hfree, _, halloc⟩
      · have hne : ¬ id = h.freelist_id := fun hc => hsame hc.symm
        have hget : ((h.pages h.freelist_id).entries.set
            (h.pages h.freelist_id).n_entries id).getD
            (h.pages h.freelist_id).n_entries 0 = id := by
          have hlen2 : (h.pages h.freelist_id).n_entries <
              (h.pages h.freelist_id).entries.length := by
            rw [hlen h.freelist_id]; exact hroom
          rw [List.getD_eq_getElem?_getD, List.getElem?_set_eq_of_lt _ hlen2]
          rfl
        have halloc := MappedHeap.alloc_pop
          (MappedHeap.setPage
            (MappedHeap.setPage h h.freelist_id
              { h.pages h.freelist_id with
                  entries := (h.pages h.freelist_id).entries.set
                    (h.pages h.freelist_id).n_entries id,
                  n_entries := (h.pages h.freelist_id).n_entries + 1 })
            id MappedHeap.zeroFreelistPage)
          (by simp [MappedHeap.setPage, hf]) (by simp [MappedHeap.setPage, hfs])
          (h.pages h.freelist_id).n_entries
          (by simp [MappedHeap.setPage, hsame]) (Nat.succ_le_of_lt hroom)
        simp only [MappedHeap.setPage, if_neg hsame, eq_self_iff_true, if_true,
          hget] at halloc
        exact ⟨_, hfree, _, halloc⟩
    · -- head page full: `id` becomes the new head, `alloc` consumes it
      exact ⟨_, MappedHeap.free_head_full h id hid0 hids hf hfs hroom, _,
        MappedHeap.alloc_linkInFront h id hid0 hids⟩

/-- A concrete heap for the C5 round trip: non-empty free list whose head
page 2 has room, freeing page 3 then allocating returns 3. -/
def c5Heap : MappedHeap.Heap :=
  { size := 4, freelist_id := 2,
    pages := fun p =>
      if p = 2 then ⟨1, 7 :: List.replicate 509 0, 0⟩ else MappedHeap.zeroFreelistPage }

theorem c5_free_then_alloc_witness :
    ∃ h', MappedHeap.free c5Heap 3 = some h' ∧
      ∃ h'', MappedHeap.alloc h' = some (3, h'') := by
  refine c5_free_then_alloc c5Heap 3 (by decide) (by decide) (fun _ => by decide) ?_
  intro p
  by_cases hp : p = 2 <;> simp [c5Heap, hp, MappedHeap.zeroFreelistPage,
    MappedHeap.FREELIST_E_PER_PAGE, MappedHeap.PAGESZ]

/-- Claim C7: in every reachable heap state `alloc` never returns the NULL
page id 0, and `free(0)` is rejected by the `assert!(id != NULL_PAGE)`
before any free-list modification. -/
theorem c7_null_page (h : MappedHeap.Heap) :
    (∀ r h', MappedHeap.Reachable h → MappedHeap.alloc h = some (r, h') →
      r ≠ MappedHeap.NULL_PAGE) ∧
    MappedHeap.free h MappedHeap.NULL_PAGE = none := by
  constructor
  · intro r h' hreach ha
    obtain ⟨⟨k, hk⟩, hlen, hpos⟩ := MappedHeap.reachable_inv hreach
    by_cases hf : h.freelist_id = MappedHeap.NULL_PAGE
    · rw [MappedHeap.alloc_slow h hf] at ha
      simp only [Option.some.injEq, Prod.mk.injEq] at ha
      obtain ⟨ha1, -⟩ := ha
      subst ha1
      have hpow : 0 < h.size := by rw [hk]; positivity
      exact fun hc => by simp [hc, MappedHeap.NULL_PAGE] at hpow
    · by_cases hlt : h.freelist_id < h.size
      · by_cases hz : (h.pages h.freelist_id).n_entries = 0
        · rw [MappedHeap.alloc_consume h hf hlt hz] at ha
          simp only [Option.some.injEq, Prod.mk.injEq] at ha
          obtain ⟨ha1, -⟩ := ha
          subst ha1
          exact hf
        · by_cases hle : (h.pages h.freelist_id).n_entries ≤
              MappedHeap.FREELIST_E_PER_PAGE
          · obtain ⟨n, hn⟩ : ∃ n, (h.pages h.freelist_id).n_entries = n + 1 :=
              ⟨(h.pages h.freelist_id).n_entries - 1, by omega⟩
            rw [MappedHeap.alloc_pop h hf hlt n hn (hn ▸ hle)] at ha
            simp only [Option.some.injEq, Prod.mk.injEq] at ha
            obtain ⟨ha1, -⟩ := ha
            subst ha1
            exact hpos h.freelist_id n (by omega) (by omega)
          · rw [MappedHeap.alloc_entries_oob h hf hlt hz hle] at ha
            exact absurd ha (by simp)
      · rw [MappedHeap.alloc_head_oob h hf hlt] at ha
        exact absurd ha (by simp)
  · exact MappedHeap.free_null h

theorem c7_null_page_witness :
    MappedHeap.free MappedHeap.initHeap MappedHeap.NULL_PAGE = none ∧
    (1 : MappedHeap.PageId) ≠ MappedHeap.NULL_PAGE := by
  refine ⟨(c7_null_page MappedHeap.initHeap).2, ?_⟩
  exact (c7_null_page MappedHeap.initHeap).1 1
    { MappedHeap.initHeap with freelist_id := 0 } MappedHeap.Reachable.init rfl

/-- Claim C9: starting from an initialized heap (size 2), the header `size`
is a power of two in every reachable state, `alloc` either keeps the size or
exactly doubles it, and `free` never changes it. -/
theorem c9_size_doubles (h : MappedHeap.Heap) :
    (MappedHeap.Reachable h → ∃ k, h.size = 2 ^ (k + 1)) ∧
    (∀ r h', MappedHeap.alloc h = some (r, h') →
      h'.size = h.size ∨ h'.size = 2 * h.size) ∧
    (∀ id h', MappedHeap.free h id = some h' → h'.size = h.size) := by
  refine ⟨fun hreach => (MappedHeap.reachable_inv hreach).1, ?_, ?_⟩
  · intro r h' ha
    by_cases hf : h.freelist_id = MappedHeap.NULL_PAGE
    · rw [MappedHeap.alloc_slow h hf] at ha
      simp only [Option.some.injEq, Prod.mk.injEq] at ha
      obtain ⟨-, ha2⟩ := ha
      subst ha2
      right; exact Nat.mul_comm _ _
    · by_cases hlt : h.freelist_id < h.size
      · by_cases hz : (h.pages h.freelist_id).n_entries = 0
        · rw [MappedHeap.alloc_consume h hf hlt hz] at ha
          simp only [Option.some.injEq, Prod.mk.injEq] at ha
          obtain ⟨-, ha2⟩ := ha
          subst ha2; left; rfl
        · by_cases hle : (h.pages h.freelist_id).n_entries ≤
              MappedHeap.FREELIST_E_PER_PAGE
          · obtain ⟨n, hn⟩ : ∃ n, (h.pages h.freelist_id).n_entries = n + 1 :=
              ⟨(h.pages h.freelist_id).n_entries - 1, by omega⟩
            rw [MappedHeap.alloc_pop h hf hlt n hn (hn ▸ hle)] at ha
            simp only [Option.some.injEq, Prod.mk.injEq] at ha
            obtain ⟨-, ha2⟩ := ha
            subst ha2; left; rfl
          · rw [MappedHeap.alloc_entries_oob h hf hlt hz hle] at ha
            exact absurd ha (by simp)
      · rw [MappedHeap.alloc_head_oob h hf hlt] at ha
        exact absurd ha (by simp)
  · intro id h' hfr
    by_cases h0 : id = MappedHeap.NULL_PAGE
    · rw [h0, MappedHeap.free_null] at hfr
      exact absurd hfr (by simp)
    · by_cases hsz : h.size ≤ id
      · rw [MappedHeap.free_size_oob h id h0 hsz] at hfr
        exact absurd hfr (by simp)
      · have hsz' : id < h.size := Nat.not_le.mp hsz
        by_cases hf : h.freelist_id = MappedHeap.NULL_PAGE
        · rw [MappedHeap.free_empty_list h id h0 hsz' hf] at hfr
          simp only [Option.some.injEq] at hfr
          subst hfr; rfl
        · by_cases hflt : h.freelist_id < h.size
          · by_cases hroom : (h.pages h.freelist_id).n_entries <
                MappedHeap.FREELIST_E_PER_PAGE
            · rw [MappedHeap.free_append h id h0 hsz' hf hflt hroom] at hfr
              simp only [Option.some.injEq] at hfr
              subst hfr; rfl
            · rw [MappedHeap.free_head_full h id h0 hsz' hf hflt hroom] at hfr
              simp only [Option.some.injEq] at hfr
              subst hfr; rfl
          · rw [MappedHeap.free_head_oob h id h0 hsz' hf hflt] at hfr
            exact absurd hfr (by simp)

theorem c9_size_doubles_witness :
    (∃ k, MappedHeap.initHeap.size = 2 ^ (k + 1)) ∧
    ((4 : Nat) = MappedHeap.initHeap.size ∨
      (4 : Nat) = 2 * MappedHeap.initHeap.size) ∧
    c5Heap.size = c5Heap.size := by
  refine ⟨(c9_size_doubles MappedHeap.initHeap).1 MappedHeap.Reachable.init, ?_, rfl⟩
  -- `alloc` on a heap with an exhausted free list doubles the size from 2 to 4
  have h4 := (c9_size_doubles { MappedHeap.initHeap with freelist_id := 0 }).2.1
    2 { size := 4,
        freelist_id := (MappedHeap.chainLoop
          (fun _ => MappedHeap.zeroFreelistPage) 0 3 4).2,
        pages := (MappedHeap.chainLoop
          (fun _ => MappedHeap.zeroFreelistPage) 0 3 4).1 }
    (MappedHeap.alloc_slow { MappedHeap.initHeap with freelist_id := 0 } rfl)
  simpa [MappedHeap.initHeap] using h4

namespace MappedHeap

/-- `const MAGIC: &[u8; 16] = b"\x89MAPHEAP\r\n\x1a\n\n\n\n\n";` (src/lib.rs). -/
def MAGIC : List Nat :=
  [0x89, 0x4D, 0x41, 0x50, 0x48, 0x45, 0x41, 0x50,
   0x0D, 0x0A, 0x1A, 0x0A, 0x0A, 0x0A, 0x0A, 0x0A]

/-- `struct FileHeader` (src/lib.rs lines 409-420): `magic: [u8; 16]`, the
two futex mutexes (modelled by their 4-byte lock word), `size` and
`freelist_id`, with explicit padding fields. -/
structure FileHeader where
  magic : List Nat
  resize_lock : Nat
  size : Nat
  alloc_lock : Nat
  freelist_id : Nat

/-- Little-endian 4-byte serialization. -/
def le32 (x : Nat) : List Nat := (List.range 4).map (fun i => x / 2 ^ (8 * i) % 256)

/-- Little-endian 8-byte serialization. -/
def le64 (x : Nat) : List Nat := (List.range 8).map (fun i => x / 2 ^ (8 * i) % 256)

/-- The byte layout of the header page (`repr(C)` `FileHeader`,
src/lib.rs): magic at bytes 0..16, `_pad0` (48 bytes), `resize_lock` plus
its alignment padding, `size`, `_pad1`, `alloc_lock`, `freelist_id`,
`_pad2`, and `_pad_end` filling the page to `PAGESZ`. -/
def headerBytes (hd : FileHeader) : List Nat :=
  hd.magic ++ List.replicate 48 0 ++ le32 hd.resize_lock ++
  List.replicate 4 0 ++ le64 hd.size ++ List.replicate 52 0 ++
  le32 hd.alloc_lock ++ le64 hd.freelist_id ++ List.replicate 48 0 ++
  List.replicate (PAGESZ - 64 * 3) 0

/-- The header written by `MappedHeap::initialize` (src/lib.rs lines
110-125): magic constant, `size = 2`, `freelist_id = 1`, fresh mutexes. -/
def initHeader : FileHeader :=
  { magic := MAGIC, resize_lock := 0, size := 2, alloc_lock := 0,
    freelist_id := 1 }

/-- `MappedHeap::sanity_check` (src/lib.rs lines 172-175), run by
`open_file` on the freshly mapped header:
`assert_eq!(&self.header().magic, MAGIC)`.  Returns the heap when the magic
matches and panics (`none`) otherwise. -/
def sanity_check (hd : FileHeader) : Option FileHeader :=
  if hd.magic = MAGIC then some hd else none

end MappedHeap

/-- Claim C8: the file header stores a fixed 16-byte magic tag at bytes
0..16 of page 0, and opening a file whose magic does not match it is fatal
(the `sanity_check` assert panics). -/
theorem c8_magic (hd : MappedHeap.FileHeader) :
    MappedHeap.MAGIC.length = 16 ∧
    (hd.magic.length = 16 →
      (MappedHeap.headerBytes hd).take 16 = hd.magic) ∧
    (MappedHeap.headerBytes MappedHeap.initHeader).take 16 = MappedHeap.MAGIC ∧
    (MappedHeap.headerBytes MappedHeap.initHeader).length = MappedHeap.PAGESZ ∧
    (hd.magic ≠ MappedHeap.MAGIC → MappedHeap.sanity_check hd = none) ∧
    MappedHeap.sanity_check MappedHeap.initHeader =
      some MappedHeap.initHeader := by
  refine ⟨rfl, ?_, ?_, ?_, ?_, rfl⟩
  · intro hlen
    rw [MappedHeap.headerBytes, List.append_assoc, List.append_assoc,
      List.append_assoc, List.append_assoc, List.append_assoc,
      List.append_assoc, List.append_assoc, List.append_assoc]
    exact List.take_left' hlen
  · rw [MappedHeap.headerBytes, List.append_assoc, List.append_assoc,
      List.append_assoc, List.append_assoc, List.append_assoc,
      List.append_assoc, List.append_assoc, List.append_assoc]
    exact List.take_left' rfl
  · simp only [MappedHeap.headerBytes, List.length_append,
      List.length_replicate, MappedHeap.le32, MappedHeap.le64,
      List.length_map, List.length_range, MappedHeap.initHeader]
    rfl
  · intro hne
    simp [MappedHeap.sanity_check, hne]

theorem c8_magic_witness :
    (MappedHeap.headerBytes MappedHeap.initHeader).take 16 =
      MappedHeap.MAGIC ∧
    MappedHeap.sanity_check
      { magic := List.replicate 16 0, resize_lock := 0, size := 2,
        alloc_lock := 0, freelist_id := 1 } = none := by
  refine ⟨(c8_magic MappedHeap.initHeader).2.2.1, ?_⟩
  exact (c8_magic { magic := List.replicate 16 0, resize_lock := 0,
                    size := 2, alloc_lock := 0,
                    freelist_id := 1 }).2.2.2.2.1 (by decide)

namespace BTree

open MappedHeap (PageId Heap NULL_PAGE)

/-- Reference model of `slice::binary_search` as used by `Node::find_slot`
(src/btree/node.rs lines 38-43 and 193-198): on the sorted, duplicate-free
key slices the tree maintains, it returns `ok i` when the key sits at index
`i`, and `error i` with `i` the insertion index (the number of smaller
keys) otherwise, which is its documented behaviour on every sorted slice. -/
def binarySearch (xs : List Nat) (k : Nat) : Except Nat Nat :=
  if xs.contains k then Except.ok (xs.indexOf k)
  else Except.error (xs.countP (fun x => decide (x < k)))

/-- `dst[lo..hi].copy_from_slice(src)`: panics unless `lo ≤ hi ≤ dst.len()`
and `src.len() = hi - lo`. -/
def copyTo (dst : List Nat) (lo hi : Nat) (src : List Nat) : Option (List Nat) :=
  if hi ≤ dst.length ∧ lo ≤ hi ∧ src.length = hi - lo then
    some (dst.take lo ++ src ++ dst.drop hi)
  else none

/-- `arr[i] = v` on a fixed-size array slice: panics when out of bounds. -/
def setA (l : List Nat) (i : Nat) (v : Nat) : Option (List Nat) :=
  if i < l.length then some (l.set i v) else none

/-- `LeafNode` (src/btree/node.rs lines 203-209): `count_: u16`,
`keys: [u64; 255]`, `data: [u64; 255]`, `next: PageId`.  The model keeps
the live prefixes `keys[..count]` and `data[..count]`; the dead cells are
never read by the code. -/
structure LeafNode where
  keys : List Nat
  data : List Nat
  next : PageId

/-- `InnerNode` (src/btree/node.rs lines 46-51): `count_: u16`,
`keys: [u64; 255]`, `children: [PageId; 256]`, keeping the live prefixes
`keys[..count]` and `children[..count + 1]`. -/
structure InnerNode where
  keys : List Nat
  children : List PageId

def LeafNode.count (l : LeafNode) : Nat := l.keys.length

def LeafNode.full (l : LeafNode) : Bool := l.count == 255

def LeafNode.half_full (l : LeafNode) : Bool := l.count == 127

def InnerNode.count (nd : InnerNode) : Nat := nd.keys.length

def InnerNode.full (nd : InnerNode) : Bool := nd.count == 255

def InnerNode.half_full (nd : InnerNode) : Bool := nd.count == 127

/-- The default `Node::find_slot` (src/btree/node.rs lines 38-43), used by
leaves: `Ok(i) => i, Err(i) => i`. -/
def LeafNode.find_slot (l : LeafNode) (key : Nat) : Nat :=
  match binarySearch l.keys key with
  | Except.ok i => i
  | Except.error i => i

/-- `InnerNode::find_slot` (src/btree/node.rs lines 193-198):
`Ok(i) => i + 1, Err(i) => i` - right-biased routing. -/
def InnerNode.find_slot (nd : InnerNode) (key : Nat) : Nat :=
  match binarySearch nd.keys key with
  | Except.ok i => i + 1
  | Except.error i => i

/-- `InnerNode::traverse` (src/btree/node.rs lines 61-63):
`self.content()[self.find_slot(key)]`.  `find_slot ≤ count` always holds,
so the index stays inside the live `children[..count + 1]`. -/
def InnerNode.traverse (nd : InnerNode) (key : Nat) : PageId :=
  nd.children.getD (nd.find_slot key) 0

/-- `LeafNode::get` (src/btree/node.rs lines 212-214). -/
def LeafNode.get (l : LeafNode) (key : Nat) : Option Nat :=
  match binarySearch l.keys key with
  | Except.ok i => some (l.data.getD i 0)
  | Except.error _ => none

/-- `LeafNode::insert_idx` (src/btree/node.rs lines 236-246): asserts
`!self.full()`, shifts `keys[i..]` and `data[i..]` one slot right and
writes the new pair at `i`.  `i > count` would make the `ptr::copy` length
underflow. -/
def LeafNode.insert_idx (l : LeafNode) (i : Nat) (key val : Nat) :
    Option LeafNode :=
  if l.full then none
  else if i ≤ l.keys.length then
    some { keys := l.keys.take i ++ key :: l.keys.drop i,
           data := l.data.take i ++ val :: l.data.drop i,
           next := l.next }
  else none

/-- `Node::insert` (src/btree/node.rs lines 16-19) at a leaf. -/
def LeafNode.insert (l : LeafNode) (key val : Nat) : Option LeafNode :=
  l.insert_idx (l.find_slot key) key val

/-- `LeafNode::remove_idx` (src/btree/node.rs lines 248-260): reads
`(keys[i], data[i])` and closes the gap. -/
def LeafNode.remove_idx (l : LeafNode) (i : Nat) :
    Option ((Nat × Nat) × LeafNode) :=
  if i < l.keys.length then
    some ((l.keys.getD i 0, l.data.getD i 0),
          { keys := l.keys.eraseIdx i, data := l.data.eraseIdx i,
            next := l.next })
  else none

/-- `Node::remove` (src/btree/node.rs lines 23-30) at a leaf: the read
`self.keys()[i]` goes out of bounds (panics) when `find_slot` lands past
the last live key. -/
def LeafNode.remove (l : LeafNode) (key : Nat) :
    Option (Option Nat × LeafNode) :=
  let i := l.find_slot key
  if i < l.keys.length then
    if l.keys.getD i 0 = key then
      (l.remove_idx i).map (fun x => (some x.1.2, x.2))
    else
      some (none, l)
  else none

/-- `InnerNode::insert_idx` (src/btree/node.rs lines 84-94): asserts
`!self.full()`, shifts `keys[i..]` and `children[i+1..]` right, writes
`keys[i] = key` and `children[i+1] = newpage`. -/
def InnerNode.insert_idx (nd : InnerNode) (i : Nat) (key : Nat)
    (newpage : PageId) : Option InnerNode :=
  if nd.full then none
  else if i ≤ nd.keys.length then
    some { keys := nd.keys.take i ++ key :: nd.keys.drop i,
           children := nd.children.take (i + 1) ++ newpage ::
             nd.children.drop (i + 1) }
  else none

/-- `Node::insert` at an inner node: uses the overridden right-biased
`find_slot`. -/
def InnerNode.insert (nd : InnerNode) (key : Nat) (newpage : PageId) :
    Option InnerNode :=
  nd.insert_idx (nd.find_slot key) key newpage

/-- `InnerNode::remove_idx` (src/btree/node.rs lines 96-110): removes
`keys[i - 1]` and `children[i]`.  `i = 0` underflows (`keys[i - 1]`
panics), `i > count` makes the `ptr::copy` length underflow. -/
def InnerNode.remove_idx (nd : InnerNode) (i : Nat) :
    Option ((Nat × PageId) × InnerNode) :=
  if 1 ≤ i ∧ i ≤ nd.keys.length then
    some ((nd.keys.getD (i - 1) 0, nd.children.getD i 0),
          { keys := nd.keys.eraseIdx (i - 1),
            children := nd.children.eraseIdx i })
  else none

/-- `InnerNode::split` (src/btree/node.rs lines 112-158).  `key` is the
incoming promoted key, `newval` the freshly split-off child.  The routine
first computes `i = find_slot(newkey) - 1` (a `usize` underflow when the
slot is 0) and asserts `self.keys[i] == newkey` - i.e. it assumes the
promoted key is already present in this node, which fails for arbitrary
inserts (spec §9 open question).  Past the assert, both branches call
`copy_from_slice` on the children arrays with a source one element longer
than the destination, so the copy panics as well. -/
def InnerNode.split (nd : InnerNode) (key : Nat) (newval : PageId) :
    Option (Nat × InnerNode × InnerNode) :=
  let newkey := key
  let remain := nd.keys.length / 2
  let rest := nd.keys.length - remain
  let fs := nd.find_slot newkey
  if fs = 0 then none  -- `find_slot(newkey) - 1` underflows
  else
    let i := fs - 1
    if nd.keys.length ≤ i then none  -- `self.keys[i]` out of bounds
    else if nd.keys.getD i 0 ≠ newkey then none  -- assert_eq! fails
    else if nd.keys.length ≤ remain then none  -- `self.keys[remain]` OOB
    else
      let promoted := nd.keys.getD remain 0
      if i > remain then do
        let before := i - remain - 1
        let tk0 ← copyTo (List.replicate 255 0) 0 before
          ((nd.keys.drop (remain + 1)).take (i - (remain + 1)))
        let tc0 ← copyTo (List.replicate 256 0) 0 (before + 1)
          ((nd.children.drop remain).take (i - remain))
        let tk1 ← setA tk0 before newkey
        let tc1 ← setA tc0 (before + 1) newval
        let tk2 ← copyTo tk1 (before + 1) rest (nd.keys.drop i)
        let tc2 ← copyTo tc1 (before + 2) (rest + 1) (nd.children.drop i)
        some (promoted,
          { keys := nd.keys.take remain,
            children := nd.children.take (remain + 1) },
          { keys := tk2.take rest, children := tc2.take (rest + 1) })
      else do
        let rest2 := rest - 1
        let tk0 ← copyTo (List.replicate 255 0) 0 rest2
          (nd.keys.drop (remain + 1))
        let tc0 ← copyTo (List.replicate 256 0) 0 (rest2 + 1)
          (nd.children.drop remain)
        -- in-place shift of keys[i..remain] and children[i..remain] one
        -- slot right, then keys[i] = newkey, children[i] = newval and
        -- remain += 1 (note children[remain] is overwritten, children
        -- slot remain+1 keeps its old value)
        some (promoted,
          { keys := nd.keys.take i ++ newkey ::
              (nd.keys.drop i).take (remain - i),
            children := nd.children.take i ++ newval ::
              ((nd.children.drop i).take (remain - i) ++
                (nd.children.drop (remain + 1)).take 1) },
          { keys := tk0.take rest2, children := tc0.take (rest2 + 1) })

/-- `LeafNode::split` (src/btree/node.rs lines 262-310): splits a full
leaf around `remain = count / 2`, inserts the new pair on the proper side,
links `target` into the leaf chain (`target.next = self.next;
self.next = target_id`) and promotes `target.keys[0]`. -/
def LeafNode.split (l : LeafNode) (key : Nat) (newval : Nat)
    (target_id : PageId) : Option (Nat × LeafNode × LeafNode) :=
  let newkey := key
  let remain := l.keys.length / 2
  let rest := l.keys.length - remain
  let i := l.find_slot newkey
  if i > remain then do
    let rest2 := rest + 1
    let before := i - remain
    let tk0 ← copyTo (List.replicate 255 0) 0 before
      ((l.keys.drop remain).take (i - remain))
    let td0 ← copyTo (List.replicate 255 0) 0 before
      ((l.data.drop remain).take (i - remain))
    let tk1 ← setA tk0 (i - remain) newkey
    let td1 ← setA td0 (i - remain) newval
    let tk2 ← copyTo tk1 (i - remain + 1) rest2 (l.keys.drop i)
    let td2 ← copyTo td1 (i - remain + 1) rest2 (l.data.drop i)
    some (tk2.getD 0 0,
      { keys := l.keys.take remain, data := l.data.take remain,
        next := target_id },
      { keys := tk2.take rest2, data := td2.take rest2, next := l.next })
  else do
    let tk0 ← copyTo (List.replicate 255 0) 0 rest (l.keys.drop remain)
    let td0 ← copyTo (List.replicate 255 0) 0 rest (l.data.drop remain)
    -- in-place shift of keys[i..remain] and data[i..remain] one slot
    -- right, then keys[i] = newkey, data[i] = newval, remain += 1
    some (tk0.getD 0 0,
      { keys := l.keys.take i ++ newkey :: (l.keys.drop i).take (remain - i),
        data := l.data.take i ++ newval :: (l.data.drop i).take (remain - i),
        next := target_id },
      { keys := tk0.take rest, data := td0.take rest, next := l.next })

/-- `InnerNode::borrow` (src/btree/node.rs lines 160-180).  The caller in
`MappedBTree::remove` always removes an entry from `self` first, so the
leading `assert!(self.half_full())` fails on every actual call. -/
def InnerNode.borrow (self par : InnerNode) (parent_slot : Nat)
    (sib : InnerNode) (is_right : Bool) :
    Option (InnerNode × InnerNode × InnerNode) :=
  if !self.half_full then none       -- assert!(self.half_full())
  else if sib.half_full then none    -- assert!(!sibling.half_full())
  else
    let idel := if is_right then 0 else sib.count - 1
    let iins := if is_right then self.count else 0
    match sib.remove_idx idel with
    | none => none
    | some (kv, sib1) =>
      if is_right then
        if par.keys.length ≤ parent_slot + 1 then none
        else if sib1.children.length = 0 then none
        else do
          let k2 := par.keys.getD (parent_slot + 1) 0
          let par2 := { par with keys := par.keys.set (parent_slot + 1) kv.1 }
          let v2 := sib1.children.getD 0 0
          let sib2 := { sib1 with children := sib1.children.set 0 kv.2 }
          let self2 ← self.insert_idx iins k2 v2
          some (self2, par2, sib2)
      else
        if par.keys.length ≤ parent_slot then none
        else if self.children.length = 0 then none
        else do
          let k2 := par.keys.getD parent_slot 0
          let par2 := { par with keys := par.keys.set parent_slot kv.1 }
          let v2 := self.children.getD 0 0
          let self1 := { self with children := self.children.set 0 kv.2 }
          let self2 ← self1.insert_idx iins k2 v2
          some (self2, par2, sib1)

/-- `LeafNode::borrow` (src/btree/node.rs lines 312-330): same leading
asserts as the inner variant (and thus also unreachable from `remove`). -/
def LeafNode.borrow (self : LeafNode) (par : InnerNode) (parent_slot : Nat)
    (sib : LeafNode) (is_right : Bool) :
    Option (LeafNode × InnerNode × LeafNode) :=
  if !self.half_full then none
  else if sib.half_full then none
  else
    let idel := if is_right then 0 else sib.count - 1
    let iins := if is_right then self.count else 0
    match sib.remove_idx idel with
    | none => none
    | some (kv, sib1) =>
      if is_right then
        if par.keys.length ≤ parent_slot then none
        else do
          let par2 := { par with
            keys := par.keys.set parent_slot (sib1.keys.getD 0 0) }
          let self2 ← self.insert_idx iins kv.1 kv.2
          some (self2, par2, sib1)
      else
        if parent_slot = 0 then none  -- `keys[parent_slot - 1]` underflows
        else if par.keys.length ≤ parent_slot - 1 then none
        else do
          let par2 := { par with keys := par.keys.set (parent_slot - 1) kv.1 }
          let self2 ← self.insert_idx iins kv.1 kv.2
          some (self2, par2, sib1)

/-- `InnerNode::merge` (src/btree/node.rs lines 182-191): concatenate as
`[self, parent_key, sibling]`. -/
def InnerNode.merge (self sib : InnerNode) (parent_key : Nat) :
    Option InnerNode :=
  if self.count + sib.count + 1 > 255 then none  -- assert! on raw length
  else if self.keys.length = 0 ∨ sib.keys.length = 0 then none
  else if ¬ self.keys.getD 0 0 < sib.keys.getD 0 0 then none
  else
    some { keys := self.keys ++ parent_key :: sib.keys,
           children := self.children ++ sib.children }

/-- `LeafNode::merge` (src/btree/node.rs lines 332-341): append the
sibling's entries and take over its `next` pointer; the parent separator is
implicit in leaves. -/
def LeafNode.merge (self sib : LeafNode) (_parent_key : Nat) :
    Option LeafNode :=
  if self.count + sib.count > 255 then none
  else if self.keys.length = 0 ∨ sib.keys.length = 0 then none
  else if ¬ self.keys.getD 0 0 < sib.keys.getD 0 0 then none
  else
    some { keys := self.keys ++ sib.keys, data := self.data ++ sib.data,
           next := sib.next }

end BTree

namespace BTree

open MappedHeap (PageId Heap NULL_PAGE)

/-- `enum BTreePageInner { Leaf(LeafNode), Inner(InnerNode) }`
(src/btree/mod.rs lines 328-333). -/
inductive BTreePageInner where
  | Leaf (l : LeafNode)
  | Inner (nd : InnerNode)

/-- `BTreePageInner::count` (src/btree/mod.rs lines 336-341). -/
def BTreePageInner.count : BTreePageInner → Nat
  | .Leaf l => l.count
  | .Inner nd => nd.count

/-- `BTreePageInner::full` (src/btree/mod.rs lines 343-348). -/
def BTreePageInner.full : BTreePageInner → Bool
  | .Leaf l => l.full
  | .Inner nd => nd.full

/-- `BTreePageInner::half_full` (src/btree/mod.rs lines 350-355). -/
def BTreePageInner.half_full : BTreePageInner → Bool
  | .Leaf l => l.half_full
  | .Inner nd => nd.half_full

/-- `BTreePageInner::traverse` (src/btree/mod.rs lines 357-362). -/
def BTreePageInner.traverse (pg : BTreePageInner) (key : Nat) :
    Option PageId :=
  match pg with
  | .Inner nd => some (nd.traverse key)
  | .Leaf _ => none

/-- `const ROOT_PAGE: PageId = 1;` (src/btree/mod.rs). -/
def ROOT_PAGE : PageId := 1

/-- The state of a `MappedBTree`: its `ExtensibleMapping` heap (header and
free-list pages) together with every page of the file viewed as a B+tree
node.  Node pages and free-list pages are disjoint views of the same file:
a page is interpreted as a node exactly while it is allocated to the tree,
so the two maps never alias in the operations modelled here. -/
structure BTreeState where
  heap : Heap
  nodes : PageId → BTreePageInner

/-- `MappedBTree::page(id)` lock acquisition combined with the `.unwrap()`
on it: the mapping returns a page only for `0 < id < header.size`. -/
def btPage (st : BTreeState) (id : PageId) : Option BTreePageInner :=
  if id = NULL_PAGE ∨ st.heap.size ≤ id then none else some (st.nodes id)

/-- Write one node page. -/
def setNode (st : BTreeState) (id : PageId) (pg : BTreePageInner) :
    BTreeState :=
  { st with nodes := fun q => if q = id then pg else st.nodes q }

/-- The read-latched descent loop shared by `get`, `wlock_subtree` and the
re-descent (src/btree/mod.rs lines 41-48 and 256-267): follow
`traverse(key)` from `start` down to the leaf, recording the path.  `fuel`
bounds the number of hops; a run out of fuel models a descent that never
reaches a leaf (a corrupt, cyclic page graph). -/
def descendPath (st : BTreeState) (key : Nat) :
    Nat → PageId → Option (List PageId)
  | 0, _ => none
  | fuel + 1, cur =>
    match btPage st cur with
    | none => none
    | some (.Leaf _) => some [cur]
    | some (.Inner nd) =>
      (descendPath st key fuel (nd.traverse key)).map (cur :: ·)

/-- `Vec::rposition`: index of the last element satisfying `p`. -/
def findLastIdx (l : List α) (p : α → Bool) : Option Nat :=
  match l.reverse.findIdx? p with
  | some j => some (l.length - 1 - j)
  | none => none

/-- `MappedBTree::wlock_subtree` (src/btree/mod.rs lines 254-316) in the
single-threaded model: descend to the leaf, find the deepest node
satisfying `pred` (the re-check under the write latch and the final
drain of unneeded write latches observe the same unshared state, so they
keep exactly this suffix), and return the path from that anchor to the
leaf.  When no node satisfies `pred` the whole path is returned with
`hit_root = true`. -/
def wlockSubtree (st : BTreeState) (key : Nat)
    (pred : BTreePageInner → Bool) : Option (List PageId × Bool) := do
  let path ← descendPath st key st.heap.size ROOT_PAGE
  match findLastIdx path (fun p => pred (st.nodes p)) with
  | some i => some (path.drop i, false)
  | none => some (path, true)

/-- The `for _ in 0..n { newpages.push(self.mapping.alloc()) }` loop of
`MappedBTree::insert` (src/btree/mod.rs lines 66-69). -/
def allocN (h : Heap) : Nat → Option (List PageId × Heap)
  | 0 => some ([], h)
  | n + 1 => do
    let (p, h') ← MappedHeap.alloc h
    let (ps, h'') ← allocN h' n
    some (p :: ps, h'')

/-- `MappedBTree::split_into` (src/btree/mod.rs lines 318-325): split the
node at `old` in place, writing the new sibling into `target_id`.
`page_ref.unwrap()` panics when an inner node is split without a child
reference. -/
def splitInto (st : BTreeState) (key val : Nat) (pref : Option PageId)
    (old target_id : PageId) : Option (BTreeState × Nat) := do
  let _ ← btPage st target_id  -- self.page(target_id).unwrap().write()
  match st.nodes old with
  | .Inner nd => do
    let pr ← pref
    let (k', self', tgt) ← nd.split key pr
    some (setNode (setNode st old (.Inner self')) target_id (.Inner tgt), k')
  | .Leaf l => do
    let (k', self', tgt) ← l.split key val target_id
    some (setNode (setNode st old (.Leaf self')) target_id (.Leaf tgt), k')

/-- The `for ((mut old, _), &new) in wpath.drain(1..).rev().zip(...)` loop
of `MappedBTree::insert` (src/btree/mod.rs lines 72-77): split each page
below the anchor, deepest first, threading the promoted key and the
freshly written sibling upward. -/
def splitLoop (val : Nat) :
    BTreeState → List (PageId × PageId) → Nat → Option PageId →
    Option (BTreeState × Nat × Option PageId)
  | st, [], key, pref => some (st, key, pref)
  | st, (old, nw) :: rest, key, pref => do
    let (st', k') ← splitInto st key val pref old nw
    splitLoop val st' rest k' (some nw)

/-- `MappedBTree::insert` (src/btree/mod.rs lines 61-101). -/
def insert (st : BTreeState) (key val : Nat) : Option BTreeState := do
  let (wpath, split_root) ← wlockSubtree st key (fun x => !x.full)
  let root_bonus := if split_root then 2 else 0
  let (newpages, heap') ← allocN st.heap (wpath.length - 1 + root_bonus)
  let st1 : BTreeState := { st with heap := heap' }
  let (st2, key2, pref2) ←
    splitLoop val st1 (((wpath.drop 1).reverse).zip newpages) key none
  let anchor ← wpath.head?  -- wpath.pop().unwrap()
  if split_root then do
    let newpagelId := newpages.getD (newpages.length - 1) 0
    let newpagerId := newpages.getD (newpages.length - 2) 0
    let _ ← btPage st2 newpagelId  -- self.page(newpagel_id).unwrap().write()
    -- *newpagel = mem::replace(&mut *page, uninitialized): the old root
    -- moves to the fresh page, then splits into newpager
    let st3 := setNode st2 newpagelId (st2.nodes anchor)
    let (st4, key4) ← splitInto st3 key2 val pref2 newpagelId newpagerId
    -- InnerNodeActual::new(newpagel_id) then tmp.insert(key, newpager_id)
    let root1 ← InnerNode.insert { keys := [], children := [newpagelId] }
      key4 newpagerId
    some (setNode st4 anchor (.Inner root1))
  else
    match st2.nodes anchor with
    | .Inner nd => do
      let pr ← pref2
      let nd' ← nd.insert key2 pr
      some (setNode st2 anchor (.Inner nd'))
    | .Leaf l => do
      let l' ← l.insert key2 val
      some (setNode st2 anchor (.Leaf l'))

end BTree

namespace BTree

open MappedHeap (PageId Heap NULL_PAGE)

/-- `MappedBTree::get` (src/btree/mod.rs lines 38-49): read-latched descent
to the leaf, then `LeafNode::get`. -/
def get (st : BTreeState) (key : Nat) : Option (Option Nat) := do
  let path ← descendPath st key st.heap.size ROOT_PAGE
  let lastId ← path.getLast?
  match st.nodes lastId with
  | .Leaf l => some (l.get key)
  | .Inner _ => none

/-- One round of the bottom-up loop of `MappedBTree::remove`
(src/btree/mod.rs lines 119-246): `iter` holds the write-latched path
still above the current page (nearest parent first), `page_id` is the
current page, `lastSlot` the parent slot recorded by the previous round's
merge, `ret` the value removed so far.  `fuel` bounds the rounds; the Rust
loop walks the finite `wpath`. -/
def removeLoop (key : Nat) (hit_root : Bool) :
    Nat → BTreeState → List PageId → PageId → Option Nat → Option Nat →
    Option (Option Nat × BTreeState)
  | 0, _, _, _, _, _ => none
  | fuel + 1, st, iter, page_id, lastSlot, ret =>
    let page := st.nodes page_id
    let root_exception := hit_root && iter.isEmpty
    if page.count = 1 then
      -- can only happen at root
      if !root_exception then none  -- assert!(root_exception)
      else
        match page with
        | .Inner nd => do
          let sl ← lastSlot                  -- last_parent_slot.unwrap()
          let (_, nd') ← nd.remove_idx sl
          if nd'.keys.length ≠ 0 then none   -- assert!(inner.count() == 0)
          else do
            let childId := nd'.children.getD 0 0  -- inner.content()[0]
            let childPg ← btPage st childId  -- page(child_id).unwrap().write()
            -- *page = mem::replace(&mut *child, uninitialized)
            let st' := setNode st page_id childPg
            let hp ← MappedHeap.free st'.heap childId
            some (ret, { st' with heap := hp })
        | .Leaf l => do
          let (r, l') ← l.remove key         -- return l.remove(key)
          some (r, setNode st page_id (.Leaf l'))
    else if page.half_full && !root_exception then
      match iter with
      | [] => none                           -- nextparent.unwrap()
      | npid :: iter' =>
        match st.nodes npid with
        | .Leaf _ => none                    -- parent is inner: unreachable!()
        | .Inner par =>
          let slot := par.find_slot key
          -- prefer the left sibling (slot.wrapping_sub(1) finds nothing
          -- when slot = 0), fall back to the right one
          let candL : Option PageId :=
            if slot = 0 then none else par.children.get? (slot - 1)
          do
          let s0 : Option PageId ←
            match candL with
            | none => pure none
            | some lid => do
              let _ ← btPage st lid          -- page(siblingl).unwrap().write()
              pure (some lid)
          let leftBad : Bool :=
            match s0 with
            | some lid => (st.nodes lid).half_full
            | none => true
          let s1 : Option (PageId × Bool) ←
            if leftBad then
              match par.children.get? (slot + 1) with
              | some rid => do
                let _ ← btPage st rid        -- page(siblingr).unwrap().write()
                pure (some (rid, true))
              | none => pure (s0.map (fun l => (l, false)))
            else
              pure (s0.map (fun l => (l, false)))
          match s1 with
          | none => none                     -- unreachable!()
          | some (sibId, is_right) =>
            let sib := st.nodes sibId
            if !sib.half_full then
              -- can borrow (but Node::borrow's leading assert always
              -- fails here, because an entry was just removed)
              match page, sib with
              | .Inner p, .Inner s => do
                let sl ← lastSlot
                let (_, p1) ← p.remove_idx sl
                let (p2, par2, s2) ← p1.borrow par slot s is_right
                let st' := setNode (setNode (setNode st page_id (.Inner p2))
                  npid (.Inner par2)) sibId (.Inner s2)
                if ret.isNone then none else some (ret, st')
              | .Leaf p, .Leaf s => do
                let (r, p1) ← p.remove key
                let (p2, par2, s2) ← p1.borrow par slot s is_right
                let st' := setNode (setNode (setNode st page_id (.Leaf p2))
                  npid (.Inner par2)) sibId (.Leaf s2)
                if r.isNone then none else some (r, st')
              | _, _ => none
            else
              -- need to merge
              match page, sib with
              | .Inner p, .Inner s => do
                let sl ← lastSlot
                let (_, p1) ← p.remove_idx sl
                let st0 := setNode st page_id (.Inner p1)
                let st1 ←
                  if is_right then do
                    let pk ← par.keys.get? slot    -- parent.keys()[slot]
                    let p2 ← p1.merge s pk
                    pure (setNode st0 page_id (.Inner p2))
                  else
                    if slot = 0 then none          -- keys()[slot-1] underflow
                    else do
                      let pk ← par.keys.get? (slot - 1)
                      let s2 ← s.merge p1 pk
                      pure (setNode st0 sibId (.Inner s2))
                let hp ← MappedHeap.free st1.heap
                  (if is_right then sibId else page_id)
                removeLoop key hit_root fuel { st1 with heap := hp } iter'
                  npid (some slot) ret
              | .Leaf p, .Leaf s => do
                let (r, p1) ← p.remove key
                let st0 := setNode st page_id (.Leaf p1)
                if r.isNone then some (none, st0)  -- if ret.is_none() return
                else do
                  let st1 ←
                    if is_right then do
                      let pk ← par.keys.get? slot
                      let p2 ← p1.merge s pk
                      pure (setNode st0 page_id (.Leaf p2))
                    else
                      if slot = 0 then none
                      else do
                        let pk ← par.keys.get? (slot - 1)
                        let s2 ← s.merge p1 pk
                        pure (setNode st0 sibId (.Leaf s2))
                  let hp ← MappedHeap.free st1.heap
                    (if is_right then sibId else page_id)
                  removeLoop key hit_root fuel { st1 with heap := hp } iter'
                    npid (some slot) r
              | _, _ => none
    else
      -- easy mode
      match page with
      | .Inner nd => do
        let sl ← lastSlot
        let (_, nd') ← nd.remove_idx sl
        if ret.isNone then none                    -- assert!(ret.is_some())
        else some (ret, setNode st page_id (.Inner nd'))
      | .Leaf l => do
        let (r, l') ← l.remove key
        if r.isNone then none
        else some (r, setNode st page_id (.Leaf l'))

/-- `MappedBTree::remove` (src/btree/mod.rs lines 103-247): write-latch the
subtree whose anchor is not `half_full`, bail out with `None` (and no page
modified) when the leaf misses the key, then run the bottom-up loop from
the leaf. -/
def remove (st : BTreeState) (key : Nat) :
    Option (Option Nat × BTreeState) := do
  let (wpath, hit_root) ← wlockSubtree st key (fun x => !x.half_full)
  let lastId ← wpath.getLast?                    -- wpath.last().unwrap()
  match st.nodes lastId with
  | .Inner _ => none                             -- unreachable!()
  | .Leaf l =>
    -- if l.keys().binary_search(&key).is_err() { return None; }
    match binarySearch l.keys key with
    | Except.error _ => some (none, st)
    | Except.ok _ =>
      match wpath.reverse with
      | [] => none
      | pid :: iter =>
        removeLoop key hit_root (wpath.length + 1) st iter pid none none

end BTree

namespace BTree

open MappedHeap (PageId Heap NULL_PAGE)

theorem binarySearch_of_not_mem {xs : List Nat} {k : Nat} (h : k ∉ xs) :
    binarySearch xs k =
      Except.error (xs.countP (fun x => decide (x < k))) := by
  rw [binarySearch, if_neg]
  simp [h]

theorem binarySearch_of_mem {xs : List Nat} {k : Nat} (h : k ∈ xs) :
    binarySearch xs k = Except.ok (xs.indexOf k) := by
  rw [binarySearch, if_pos]
  simp [h]

end BTree

/-- Claim C6: when the leaf reached by the descent for `key` does not
contain it, `remove` returns `None` and leaves every page (and the heap)
unmodified, and a second `remove` of the same key again returns `None`. -/
theorem c6_remove_absent (st : BTree.BTreeState) (key : Nat)
    (wpath : List MappedHeap.PageId) (hr : Bool) (lid : MappedHeap.PageId)
    (l : BTree.LeafNode)
    (hw : BTree.wlockSubtree st key (fun x => !x.half_full) =
      some (wpath, hr))
    (hlast : wpath.getLast? = some lid)
    (hleaf : st.nodes lid = BTree.BTreePageInner.Leaf l)
    (habs : key ∉ l.keys) :
    BTree.remove st key = some (none, st) ∧
    (do
      let r ← BTree.remove st key
      BTree.remove r.2 key) = some (none, st) := by
  have h1 : BTree.remove st key = some (none, st) := by
    rw [BTree.remove, hw]
    simp only [Option.bind_eq_bind, Option.some_bind]
    rw [hlast]
    simp only [Option.some_bind]
    rw [hleaf]
    simp only [BTree.binarySearch_of_not_mem habs]
  exact ⟨h1, by rw [h1]; simpa using h1⟩

/-- A concrete single-leaf tree (keys 1 and 2) for the C6 witness:
`remove 5` returns `None` and the state is untouched. -/
def c6State : BTree.BTreeState :=
  { heap := { size := 2, freelist_id := 0,
              pages := fun _ => MappedHeap.zeroFreelistPage },
    nodes := fun _ =>
      BTree.BTreePageInner.Leaf { keys := [1, 2], data := [10, 20], next := 0 } }

theorem c6_remove_absent_witness :
    BTree.remove c6State 5 = some (none, c6State) :=
  (c6_remove_absent c6State 5 [1] false 1
    { keys := [1, 2], data := [10, 20], next := 0 }
    (by rfl) (by rfl) (by rfl) (by decide)).1


namespace BTree

open MappedHeap (PageId Heap NULL_PAGE)

theorem sorted_indexOf_eq : ∀ {l : List Nat} {i : Nat} {k : Nat},
    List.Sorted (· < ·) l → l[i]? = some k → l.indexOf k = i := by
  intro l i k hs h
  obtain ⟨hi, hv⟩ := List.getElem?_eq_some.mp h
  have hmem : k ∈ l := List.getElem?_mem h
  have hlt : l.indexOf k < l.length := List.indexOf_lt_length.mpr hmem
  have hval : l.get ⟨l.indexOf k, hlt⟩ = k := List.indexOf_get hlt
  have heq : l.get ⟨l.indexOf k, hlt⟩ = l.get ⟨i, hi⟩ := by
    rw [hval]; exact hv.symm
  exact hs.nodup.getElem_inj_iff.mp heq

theorem sorted_rank_iff : ∀ (l : List Nat) (k : Nat),
    List.Sorted (· < ·) l → k ∉ l → ∀ j x, l[j]? = some x →
    (j < l.countP (fun y => decide (y < k)) ↔ x < k) := by
  intro l
  induction l with
  | nil => intro k _ _ j x hx; simp at hx
  | cons a t ih =>
    intro k hs hnm j x hx
    rw [List.sorted_cons] at hs
    obtain ⟨ha, ht⟩ := hs
    have hka : k ≠ a := fun hc => hnm (hc ▸ List.mem_cons_self a t)
    have hknt : k ∉ t := fun hc => hnm (List.mem_cons_of_mem a hc)
    rcases j with _ | j
    · simp only [List.getElem?_cons_zero, Option.some.injEq] at hx
      subst hx
      rw [List.countP_cons]
      by_cases hak : a < k
      · have hone : (if (fun y => decide (y < k)) a then 1 else 0) = 1 := by
          simp [hak]
        rw [hone]
        constructor
        · intro _; exact hak
        · intro _; omega
      · have hzero : (if (fun y => decide (y < k)) a then 1 else 0) = 0 := by
          simp [hak]
        have hcnt : t.countP (fun y => decide (y < k)) = 0 := by
          rw [List.countP_eq_zero]
          intro y hy
          have hay := ha y hy
          simp only [decide_eq_true_eq]
          omega
        rw [hzero, hcnt]
        constructor
        · intro hj; omega
        · intro hxk; omega
    · simp only [List.getElem?_cons_succ] at hx
      have hiff := ih k ht hknt j x hx
      rw [List.countP_cons]
      by_cases hak : a < k
      · have hone : (if (fun y => decide (y < k)) a then 1 else 0) = 1 := by
          simp [hak]
        rw [hone]
        constructor
        · intro hj
          exact hiff.mp (by omega)
        · intro hxk
          have := hiff.mpr hxk
          omega
      · have hzero : (if (fun y => decide (y < k)) a then 1 else 0) = 0 := by
          simp [hak]
        have hkx : k < a := by omega
        have hcnt : t.countP (fun y => decide (y < k)) = 0 := by
          rw [List.countP_eq_zero]
          intro y hy
          have hay := ha y hy
          simp only [decide_eq_true_eq]
          omega
        have hxt : x ∈ t := List.getElem?_mem hx
        have hax := ha x hxt
        rw [hzero, hcnt]
        constructor
        · intro hj; omega
        · intro hxk; omega

end BTree

/-- Claim C3: on an inner node with sorted keys, `find_slot` returns
`idx + 1` when the key sits at index `idx` (exact match) and the insertion
index (the number of smaller keys, which splits the keys into a strictly
smaller prefix and a strictly larger suffix) otherwise, and descent follows
`children[find_slot(k)]`. -/
theorem c3_find_slot_routing (nd : BTree.InnerNode) (k : Nat)
    (hs : List.Sorted (· < ·) nd.keys) :
    (∀ idx, nd.keys[idx]? = some k → nd.find_slot k = idx + 1) ∧
    (k ∉ nd.keys →
      nd.find_slot k = nd.keys.countP (fun y => decide (y < k)) ∧
      (∀ j x, nd.keys[j]? = some x → (j < nd.find_slot k ↔ x < k))) ∧
    nd.traverse k = nd.children.getD (nd.find_slot k) 0 := by
  refine ⟨?_, ?_, rfl⟩
  · intro idx h
    have hmem : k ∈ nd.keys := List.getElem?_mem h
    rw [BTree.InnerNode.find_slot, BTree.binarySearch_of_mem hmem]
    rw [BTree.sorted_indexOf_eq hs h]
  · intro habs
    have hfs : nd.find_slot k = nd.keys.countP (fun y => decide (y < k)) := by
      rw [BTree.InnerNode.find_slot, BTree.binarySearch_of_not_mem habs]
    refine ⟨hfs, ?_⟩
    intro j x hx
    rw [hfs]
    exact BTree.sorted_rank_iff nd.keys k hs habs j x hx

theorem c3_find_slot_routing_witness :
    BTree.InnerNode.find_slot ⟨[10, 20], [2, 3, 4]⟩ 10 = 1 ∧
    BTree.InnerNode.find_slot ⟨[10, 20], [2, 3, 4]⟩ 15 = 1 ∧
    BTree.InnerNode.traverse ⟨[10, 20], [2, 3, 4]⟩ 15 =
      (⟨[10, 20], [2, 3, 4]⟩ : BTree.InnerNode).children.getD
        (BTree.InnerNode.find_slot ⟨[10, 20], [2, 3, 4]⟩ 15) 0 := by
  refine ⟨(c3_find_slot_routing ⟨[10, 20], [2, 3, 4]⟩ 10 ?_).1 0 (by rfl),
    ((c3_find_slot_routing ⟨[10, 20], [2, 3, 4]⟩ 15 ?_).2.1 (by decide)).1.trans
      (by rfl),
    (c3_find_slot_routing ⟨[10, 20], [2, 3, 4]⟩ 15 ?_).2.2⟩ <;> decide

/-- Claim C10: inserting `(k, v)` into a non-full leaf that already holds
`k` at index `i` with value `v0` does not overwrite: the count grows by
one, the new pair lands at index `i`, immediately before the old pair,
and both entries remain in the node. -/
theorem c10_duplicate_insert (l : BTree.LeafNode) (i : Nat) (k v v0 : Nat)
    (hs : List.Sorted (· < ·) l.keys)
    (hk : l.keys[i]? = some k) (hd : l.data[i]? = some v0)
    (hnotfull : l.keys.length < 255) :
    ∃ l', BTree.LeafNode.insert l k v = some l' ∧
      l'.keys.length = l.keys.length + 1 ∧
      l'.keys[i]? = some k ∧ l'.data[i]? = some v ∧
      l'.keys[i + 1]? = some k ∧ l'.data[i + 1]? = some v0 := by
  obtain ⟨hi, -⟩ := List.getElem?_eq_some.mp hk
  obtain ⟨hdi, -⟩ := List.getElem?_eq_some.mp hd
  have hmem : k ∈ l.keys := List.getElem?_mem hk
  have hfs : l.find_slot k = i := by
    rw [BTree.LeafNode.find_slot, BTree.binarySearch_of_mem hmem]
    exact BTree.sorted_indexOf_eq hs hk
  have hfull : l.full = false := by
    simp only [BTree.LeafNode.full, BTree.LeafNode.count, beq_eq_false_iff_ne,
      ne_eq]
    omega
  have htk : (l.keys.take i).length = i := by
    rw [List.length_take]; omega
  have htd : (l.data.take i).length = i := by
    rw [List.length_take]; omega
  refine ⟨{ keys := l.keys.take i ++ k :: l.keys.drop i,
            data := l.data.take i ++ v :: l.data.drop i,
            next := l.next }, ?_, ?_, ?_, ?_, ?_, ?_⟩
  · rw [BTree.LeafNode.insert, hfs, BTree.LeafNode.insert_idx, hfull]
    simp only [Bool.false_eq_true, if_false, if_pos (Nat.le_of_lt hi)]
  · simp only [List.length_append, List.length_cons, htk, List.length_drop]
    omega
  · show (l.keys.take i ++ k :: l.keys.drop i)[i]? = some k
    rw [List.getElem?_append_right (by rw [htk]), htk]
    simp
  · show (l.data.take i ++ v :: l.data.drop i)[i]? = some v
    rw [List.getElem?_append_right (by rw [htd]), htd]
    simp
  · show (l.keys.take i ++ k :: l.keys.drop i)[i + 1]? = some k
    rw [List.getElem?_append_right (by rw [htk]; omega), htk]
    have : i + 1 - i = 1 := by omega
    rw [this]
    simp only [List.getElem?_cons_succ, List.getElem?_drop]
    simpa using hk
  · show (l.data.take i ++ v :: l.data.drop i)[i + 1]? = some v0
    rw [List.getElem?_append_right (by rw [htd]; omega), htd]
    have : i + 1 - i = 1 := by omega
    rw [this]
    simp only [List.getElem?_cons_succ, List.getElem?_drop]
    simpa using hd

/-- A concrete non-full leaf already holding key 5 with value 50: inserting
(5, 99) duplicates the key, the new pair sitting just before the old. -/
theorem c10_duplicate_insert_witness :
    ∃ l', BTree.LeafNode.insert ⟨[3, 5, 8], [30, 50, 80], 0⟩ 5 99 = some l' ∧
      l'.keys.length = 4 ∧
      l'.keys[1]? = some 5 ∧ l'.data[1]? = some 99 ∧
      l'.keys[2]? = some 5 ∧ l'.data[2]? = some 50 := by
  obtain ⟨l', h1, h2, h3, h4, h5, h6⟩ :=
    c10_duplicate_insert ⟨[3, 5, 8], [30, 50, 80], 0⟩ 1 5 99 50
      (by decide) (by rfl) (by rfl) (by decide)
  exact ⟨l', h1, h2, h3, h4, h5, h6⟩

namespace BTree

open MappedHeap (PageId Heap NULL_PAGE)

theorem setNode_nodes_self (st : BTreeState) (id : PageId)
    (pg : BTreePageInner) : (setNode st id pg).nodes id = pg := by
  simp [setNode]

theorem setNode_heap (st : BTreeState) (id : PageId) (pg : BTreePageInner) :
    (setNode st id pg).heap = st.heap := rfl

theorem setNode_nodes_ne (st : BTreeState) (id q : PageId)
    (pg : BTreePageInner) (hq : q ≠ id) :
    (setNode st id pg).nodes q = st.nodes q := by
  simp [setNode, hq]

theorem copyTo_length {dst : List Nat} {lo hi : Nat} {src out : List Nat}
    (h : copyTo dst lo hi src = some out) : out.length = dst.length := by
  rw [copyTo] at h
  split at h
  · rename_i hc
    obtain ⟨h1, h2, h3⟩ := hc
    simp only [Option.some.injEq] at h
    subst h
    simp only [List.length_append, List.length_take, List.length_drop]
    omega
  · exact absurd h (by simp)

theorem find_slot_le_length (l : LeafNode) (k : Nat) :
    l.find_slot k ≤ l.keys.length := by
  rw [LeafNode.find_slot, binarySearch]
  by_cases hm : l.keys.contains k
  · rw [if_pos hm]
    exact Nat.le_of_lt (List.indexOf_lt_length.mpr (by simpa using hm))
  · rw [if_neg hm]
    exact List.countP_le_length _

theorem copyTo_some (dst : List Nat) (lo hi : Nat) (src : List Nat)
    (h1 : hi ≤ dst.length) (h2 : lo ≤ hi) (h3 : src.length = hi - lo) :
    ∃ out, copyTo dst lo hi src = some out ∧ out.length = dst.length := by
  refine ⟨_, by rw [copyTo, if_pos ⟨h1, h2, h3⟩], ?_⟩
  simp only [List.length_append, List.length_take, List.length_drop]
  omega

theorem setA_some (l : List Nat) (i v : Nat) (h : i < l.length) :
    ∃ out, setA l i v = some out ∧ out.length = l.length := by
  refine ⟨_, by rw [setA, if_pos h], ?_⟩
  exact List.length_set l i v

/-- A full leaf always splits successfully: every slice bound in
`LeafNode::split` is in range for `count = 255`. -/
theorem leaf_split_total (l : LeafNode) (k v t : Nat)
    (hk : l.keys.length = 255) (hd : l.data.length = 255) :
    (l.split k v t).isSome = true := by
  have hfs := find_slot_le_length l k
  rw [hk] at hfs
  rw [LeafNode.split, hk]
  split
  next hgt =>
    obtain ⟨tk0, e1, l1⟩ := copyTo_some (List.replicate 255 0) 0
      (l.find_slot k - 255 / 2)
      ((l.keys.drop (255 / 2)).take (l.find_slot k - (255 / 2)))
      (by simp only [List.length_replicate]; omega) (by omega)
      (by simp only [List.length_take, List.length_drop, hk]; omega)
    obtain ⟨td0, e2, l2⟩ := copyTo_some (List.replicate 255 0) 0
      (l.find_slot k - 255 / 2)
      ((l.data.drop (255 / 2)).take (l.find_slot k - (255 / 2)))
      (by simp only [List.length_replicate]; omega) (by omega)
      (by simp only [List.length_take, List.length_drop, hd]; omega)
    rw [List.length_replicate] at l1 l2
    obtain ⟨tk1, e3, l3⟩ := setA_some tk0 (l.find_slot k - 255 / 2) k
      (by omega)
    obtain ⟨td1, e4, l4⟩ := setA_some td0 (l.find_slot k - 255 / 2) v
      (by omega)
    obtain ⟨tk2, e5, -⟩ := copyTo_some tk1 (l.find_slot k - 255 / 2 + 1)
      (255 - 255 / 2 + 1) (l.keys.drop (l.find_slot k))
      (by omega) (by omega)
      (by simp only [List.length_drop, hk]; omega)
    obtain ⟨td2, e6, -⟩ := copyTo_some td1 (l.find_slot k - 255 / 2 + 1)
      (255 - 255 / 2 + 1) (l.data.drop (l.find_slot k))
      (by omega) (by omega)
      (by simp only [List.length_drop, hd]; omega)
    simp only [Option.bind_eq_bind, e1, Option.some_bind, e2, e3, e4, e5, e6,
      Option.isSome_some]
  next hgt =>
    obtain ⟨tk0, e1, -⟩ := copyTo_some (List.replicate 255 0) 0
      (255 - 255 / 2) (l.keys.drop (255 / 2))
      (by simp only [List.length_replicate]; omega) (by omega)
      (by simp only [List.length_drop, hk])
    obtain ⟨td0, e2, -⟩ := copyTo_some (List.replicate 255 0) 0
      (255 - 255 / 2) (l.data.drop (255 / 2))
      (by simp only [List.length_replicate]; omega) (by omega)
      (by simp only [List.length_drop, hd])
    simp only [Option.bind_eq_bind, e1, Option.some_bind, e2,
      Option.isSome_some]

end BTree

namespace BTree

open MappedHeap (PageId Heap NULL_PAGE)

/-- Root collapse: at the root (`hit_root`, nothing above), with the inner
root down to a single separator after the child merge below recorded
parent slot 1, the loop copies the surviving child's contents into the
root page and frees the child's page. -/
theorem removeLoop_collapse (st : BTreeState) (nd : InnerNode) (sk : Nat)
    (c d : PageId) (key : Nat) (fuel : Nat) (ret : Option Nat) (hp' : Heap)
    (hroot : st.nodes ROOT_PAGE = BTreePageInner.Inner nd)
    (hkeys : nd.keys = [sk]) (hch : nd.children = [c, d])
    (hc0 : c ≠ NULL_PAGE) (hcS : c < st.heap.size)
    (hfree : MappedHeap.free st.heap c = some hp') :
    ∃ st', removeLoop key true (fuel + 1) st [] ROOT_PAGE (some 1) ret =
        some (ret, st') ∧
      st'.nodes ROOT_PAGE = st.nodes c ∧ st'.heap = hp' := by
  have hcount : (BTreePageInner.Inner nd).count = 1 := by
    simp [BTreePageInner.count, InnerNode.count, hkeys]
  have hrm : nd.remove_idx 1 = some ((sk, d),
      { keys := [], children := [c] }) := by
    simp [InnerNode.remove_idx, hkeys, hch]
  have hbtc : btPage st c = some (st.nodes c) := by
    rw [btPage, if_neg]
    push_neg
    exact ⟨hc0, hcS⟩
  refine ⟨{ setNode st ROOT_PAGE (st.nodes c) with heap := hp' }, ?_, ?_, rfl⟩
  · rw [removeLoop]
    simp only [hroot, hcount, List.isEmpty_nil, Bool.and_true, Bool.not_true,
      Bool.false_eq_true, if_false, if_pos rfl, Option.bind_eq_bind,
      Option.some_bind, hrm, hbtc]
    simp [hbtc, hfree, setNode_heap]
  · exact setNode_nodes_self st ROOT_PAGE (st.nodes c)

end BTree

namespace BTree

open MappedHeap (PageId Heap NULL_PAGE)

/-- Root split of a tree whose root is a full leaf: the old root's contents
move to the freshly allocated page `b` and split into the freshly allocated
page `a`, and page 1 is rebuilt in place as the new one-separator inner
root over `(b, a)`. -/
theorem insert_full_leaf_root (st : BTreeState) (lf : LeafNode) (k v : Nat)
    (a b : PageId) (hp' : Heap)
    (hroot : st.nodes ROOT_PAGE = BTreePageInner.Leaf lf)
    (hk : lf.keys.length = 255) (hd : lf.data.length = 255)
    (hsz : 1 < st.heap.size)
    (halloc : allocN st.heap 2 = some ([a, b], hp'))
    (ha0 : a ≠ NULL_PAGE) (haS : a < hp'.size)
    (hb0 : b ≠ NULL_PAGE) (hbS : b < hp'.size)
    (hA1 : a ≠ ROOT_PAGE) (hB1 : b ≠ ROOT_PAGE) (hab : a ≠ b) :
    ∃ k' L R st', lf.split k v a = some (k', L, R) ∧
      insert st k v = some st' ∧
      st'.nodes ROOT_PAGE = BTreePageInner.Inner ⟨[k'], [b, a]⟩ ∧
      st'.nodes b = BTreePageInner.Leaf L ∧
      st'.nodes a = BTreePageInner.Leaf R ∧
      st'.heap = hp' := by
  obtain ⟨⟨k', L, R⟩, hsp⟩ :=
    Option.isSome_iff_exists.mp (leaf_split_total lf k v a hk hd)
  have hbt1 : btPage st ROOT_PAGE = some (BTreePageInner.Leaf lf) := by
    rw [btPage, if_neg, hroot]
    push_neg
    exact ⟨by simp [ROOT_PAGE, NULL_PAGE], by simpa [ROOT_PAGE] using hsz⟩
  have hdesc : descendPath st k st.heap.size ROOT_PAGE =
      some [ROOT_PAGE] := by
    obtain ⟨m, hm⟩ : ∃ m, st.heap.size = m + 1 :=
      ⟨st.heap.size - 1, by omega⟩
    rw [hm]
    simp only [descendPath, hbt1]
  have hfull : (st.nodes ROOT_PAGE).full = true := by
    rw [hroot]
    simp [BTreePageInner.full, LeafNode.full, LeafNode.count, hk]
  have hwl : wlockSubtree st k (fun x => !x.full) =
      some ([ROOT_PAGE], true) := by
    rw [wlockSubtree]
    simp only [hdesc, Option.bind_eq_bind, Option.some_bind]
    simp [findLastIdx, hfull]
  have hbtb : btPage { st with heap := hp' } b =
      some (st.nodes b) := by
    rw [btPage, if_neg]
    push_neg
    exact ⟨hb0, hbS⟩
  have hbta : btPage (setNode { st with heap := hp' } b
      (BTreePageInner.Leaf lf)) a =
      some ((setNode { st with heap := hp' } b
        (BTreePageInner.Leaf lf)).nodes a) := by
    rw [btPage, if_neg]
    push_neg
    exact ⟨ha0, haS⟩
  have hr1 : InnerNode.insert ⟨[], [b]⟩ k' a =
      some ⟨[k'], [b, a]⟩ := rfl
  refine ⟨k', L, R, setNode (setNode (setNode (setNode { st with heap := hp' }
      b (BTreePageInner.Leaf lf)) b (BTreePageInner.Leaf L)) a
      (BTreePageInner.Leaf R)) ROOT_PAGE
      (BTreePageInner.Inner ⟨[k'], [b, a]⟩), hsp, ?_, ?_, ?_, ?_, rfl⟩
  · have hnb : (setNode { st with heap := hp' } b
        (BTreePageInner.Leaf lf)).nodes b = BTreePageInner.Leaf lf :=
      setNode_nodes_self _ _ _
    rw [insert]
    simp only [hwl, Option.bind_eq_bind, Option.some_bind]
    simp [halloc, hbtb, hbta, hnb, hsp, hroot, hr1, splitLoop, splitInto]
  · rw [setNode_nodes_self]
  · rw [setNode_nodes_ne _ _ _ _ hB1, setNode_nodes_ne _ _ _ _
      (fun hc => hab hc.symm), setNode_nodes_self]
  · rw [setNode_nodes_ne _ _ _ _ hA1, setNode_nodes_self]

end BTree

/-- Claim C2: after every insert and every remove PageId 1 still holds the
root node.  A completing root split relocates the old root's contents to a
freshly allocated child, splits them there, and rebuilds the root in place
at PageId 1 as an inner node over the two fresh pages; a root collapse
copies the surviving child's contents into PageId 1 and frees the child's
page. -/
theorem c2_root_page :
    (∀ (st : BTree.BTreeState) (lf : BTree.LeafNode) (k v : Nat)
        (a b : MappedHeap.PageId) (hp' : MappedHeap.Heap),
      st.nodes BTree.ROOT_PAGE = BTree.BTreePageInner.Leaf lf →
      lf.keys.length = 255 → lf.data.length = 255 →
      1 < st.heap.size →
      BTree.allocN st.heap 2 = some ([a, b], hp') →
      a ≠ MappedHeap.NULL_PAGE → a < hp'.size →
      b ≠ MappedHeap.NULL_PAGE → b < hp'.size →
      a ≠ BTree.ROOT_PAGE → b ≠ BTree.ROOT_PAGE → a ≠ b →
      ∃ k' L R st', lf.split k v a = some (k', L, R) ∧
        BTree.insert st k v = some st' ∧
        st'.nodes BTree.ROOT_PAGE =
          BTree.BTreePageInner.Inner ⟨[k'], [b, a]⟩ ∧
        st'.nodes b = BTree.BTreePageInner.Leaf L ∧
        st'.nodes a = BTree.BTreePageInner.Leaf R ∧
        st'.heap = hp') ∧
    (∀ (st : BTree.BTreeState) (nd : BTree.InnerNode) (sk : Nat)
        (c d : MappedHeap.PageId) (key fuel : Nat) (ret : Option Nat)
        (hp' : MappedHeap.Heap),
      st.nodes BTree.ROOT_PAGE = BTree.BTreePageInner.Inner nd →
      nd.keys = [sk] → nd.children = [c, d] →
      c ≠ MappedHeap.NULL_PAGE → c < st.heap.size →
      MappedHeap.free st.heap c = some hp' →
      ∃ st', BTree.removeLoop key true (fuel + 1) st [] BTree.ROOT_PAGE
          (some 1) ret = some (ret, st') ∧
        st'.nodes BTree.ROOT_PAGE = st.nodes c ∧ st'.heap = hp') :=
  ⟨fun st lf k v a b hp' h1 h2 h3 h4 h5 h6 h7 h8 h9 h10 h11 h12 =>
    BTree.insert_full_leaf_root st lf k v a b hp' h1 h2 h3 h4 h5 h6 h7 h8 h9
      h10 h11 h12,
   fun st nd sk c d key fuel ret hp' h1 h2 h3 h4 h5 h6 =>
    BTree.removeLoop_collapse st nd sk c d key fuel ret hp' h1 h2 h3 h4 h5 h6⟩

/-- A full leaf (keys and values 0..254) sitting at the root page. -/
def c2Leaf : BTree.LeafNode :=
  { keys := List.range 255, data := List.range 255, next := 0 }

/-- Heap for the C2 insert witness: head free-list page 2 carries pages
8 and 9. -/
def c2InsHeap : MappedHeap.Heap :=
  { size := 16, freelist_id := 2,
    pages := fun p =>
      if p = 2 then ⟨2, 8 :: 9 :: List.replicate 508 0, 0⟩
      else MappedHeap.zeroFreelistPage }

def c2InsState : BTree.BTreeState :=
  { heap := c2InsHeap, nodes := fun _ => BTree.BTreePageInner.Leaf c2Leaf }

/-- The heap after the two allocations of the root split (pages 9 then 8
popped from the head free-list page). -/
def c2AllocHeap : MappedHeap.Heap :=
  MappedHeap.setPage
    (MappedHeap.setPage c2InsHeap 2 ⟨1, 8 :: 9 :: List.replicate 508 0, 0⟩)
    2 ⟨0, 8 :: 9 :: List.replicate 508 0, 0⟩

/-- State for the C2 collapse witness: inner root with one separator over
children 2 and 3. -/
def c2RemState : BTree.BTreeState :=
  { heap := { size := 4, freelist_id := 0,
              pages := fun _ => MappedHeap.zeroFreelistPage },
    nodes := fun p =>
      if p = 1 then BTree.BTreePageInner.Inner ⟨[50], [2, 3]⟩
      else BTree.BTreePageInner.Leaf ⟨[7], [70], 0⟩ }

theorem c2_root_page_witness :
    (∃ k' L R st',
      BTree.LeafNode.split c2Leaf 300 777 9 = some (k', L, R) ∧
      BTree.insert c2InsState 300 777 = some st' ∧
      st'.nodes BTree.ROOT_PAGE =
        BTree.BTreePageInner.Inner ⟨[k'], [8, 9]⟩ ∧
      st'.nodes 8 = BTree.BTreePageInner.Leaf L ∧
      st'.nodes 9 = BTree.BTreePageInner.Leaf R ∧
      st'.heap = c2AllocHeap) ∧
    (∃ st',
      BTree.removeLoop 60 true 1 c2RemState [] BTree.ROOT_PAGE (some 1)
        (some 33) = some (some 33, st') ∧
      st'.nodes BTree.ROOT_PAGE = c2RemState.nodes 2 ∧
      st'.heap = MappedHeap.linkInFront c2RemState.heap 2) := by
  constructor
  · exact c2_root_page.1 c2InsState c2Leaf 300 777 9 8 c2AllocHeap rfl
      (by simp [c2Leaf]) (by simp [c2Leaf]) (by decide) (by rfl)
      (by decide) (by decide) (by decide) (by decide) (by decide) (by decide)
      (by decide)
  · exact c2_root_page.2 c2RemState ⟨[50], [2, 3]⟩ 50 2 3 60 0 (some 33)
      (MappedHeap.linkInFront c2RemState.heap 2) rfl rfl rfl (by decide)
      (by decide) (by rfl)

/-- A full inner root for the C1 counterexample: separators 1000, 2000,
..., 255000 over children 2..257. -/
def c1Root : BTree.InnerNode :=
  { keys := (List.range 255).map (fun j => (j + 1) * 1000),
    children := (List.range 256).map (fun j => j + 2) }

/-- A full leaf holding keys 0..254 (so 500 is absent from the tree). -/
def c1Leaf : BTree.LeafNode :=
  { keys := List.range 255, data := List.range 255, next := 0 }

/-- Two-level tree: full inner root at page 1, full leaves below, ample
heap (1024 pages) with three free pages 700, 701, 702 on the free list. -/
def c1Heap : MappedHeap.Heap :=
  { size := 1024, freelist_id := 5,
    pages := fun p =>
      if p = 5 then ⟨3, 700 :: 701 :: 702 :: List.replicate 507 0, 0⟩
      else MappedHeap.zeroFreelistPage }

def c1State : BTree.BTreeState :=
  { heap := c1Heap,
    nodes := fun p =>
      if p = 1 then BTree.BTreePageInner.Inner c1Root
      else BTree.BTreePageInner.Leaf c1Leaf }

/-- Claim C1 (refuted): `insert(k, v); get(k) = Some(v)` fails for fresh
keys.  In `c1State` the key 500 is absent (`get` returns `None`), the
descent leaf and the root are full, so `insert 500 9999` must split the
root; the leaf split promotes key 127, which is not among the root's
separators, so `InnerNode::split` computes `i = find_slot(127) - 1` - a
`usize` underflow, since the slot is 0 - and its
`assert_eq!(self.keys[i], newkey)` cannot hold.  The embedded `insert`
returns `none` (the Rust code panics), so the round trip can never
produce `Some(9999)`. -/
theorem c1_insert_get_roundtrip :
    BTree.get c1State 500 = some none ∧
    BTree.insert c1State 500 9999 = none := by
  exact ⟨rfl, rfl⟩
